import Mathlib

/-!
Shallow embedding of the `orbit` version-control engine (Rust sources under
`src/`): the Keccak-256 hasher (`vos::hash_data`), the object store
(`vos::save_object`, `vos::store_object_with_id`, `vos::chunk_and_save_file`),
the snapshot pipeline (`repo::save_snapshot` and helpers), the status engine
(`status::check_status`, `index::VosIndex::has_file_changed`), the VNP message
type and framing helpers (`vnp.rs`), the sync download step
(`main::run_sync_with_stream`), and URL parsing (`client_tls.rs`).

Filesystem effects are modelled by explicit state passing over a `World`
carrying an association list of files plus fault oracles for the fallible
filesystem calls (`fs::create_dir_all`, `fs::File::create`, `fs::write`).
Rust panics are modelled as `Option.none`; `Result` is modelled as `Except`.
-/

namespace Orbit

/-- A byte: a natural number below 256 (we do not enforce the bound in the
type; all producers yield values `< 256`). -/
abbrev Byte := Nat

/-! ### Keccak-256 (the `sha3` crate's `Keccak256`, used by `vos::hash_data`) -/

/-- 64-bit rotate left, on naturals reduced modulo `2 ^ 64`. -/
def rotl64 (v n : Nat) : Nat :=
  ((v <<< n) ||| (v >>> (64 - n))) % (2 ^ 64)

/-- Bitwise complement within 64 bits. -/
def not64 (v : Nat) : Nat := v ^^^ (2 ^ 64 - 1)

/-- The 24 Keccak-f[1600] round constants. -/
def keccakRC : List Nat :=
  [0x0000000000000001, 0x0000000000008082, 0x800000000000808a, 0x8000000080008000,
   0x000000000000808b, 0x0000000080000001, 0x8000000080008081, 0x8000000000008009,
   0x000000000000008a, 0x0000000000000088, 0x0000000080008009, 0x000000008000000a,
   0x000000008000808b, 0x800000000000008b, 0x8000000000008089, 0x8000000000008003,
   0x8000000000008002, 0x8000000000000080, 0x000000000000800a, 0x800000008000000a,
   0x8000000080008081, 0x8000000000008080, 0x0000000080000001, 0x8000000080008008]

/-- Rotation offsets for lane `x + 5 * y`. -/
def keccakRot : List Nat :=
  [0, 1, 62, 28, 27] ++
    [36, 44, 6, 55, 20] ++
    [3, 10, 43, 25, 39] ++
    [41, 45, 15, 21, 8] ++
    [18, 2, 61, 56, 14]

/-- Source lane of the ρ∘π permutation for target lane `j`
(`B[y, 2x+3y] = rot(A[x, y])` inverted). -/
def piSource (j : Nat) : Nat :=
  let xt := j % 5
  let yt := j / 5
  (3 * (yt + 2 * xt)) % 5 + 5 * xt

/-- One Keccak-f[1600] round (θ, ρ, π, χ, ι) on a 25-lane state. -/
def keccakRound (st : List Nat) (rc : Nat) : List Nat :=
  let a := fun i => st.getD i 0
  let c := fun x => a x ^^^ a (x + 5) ^^^ a (x + 10) ^^^ a (x + 15) ^^^ a (x + 20)
  let d := fun x => c ((x + 4) % 5) ^^^ rotl64 (c ((x + 1) % 5)) 1
  let athetad := List.ofFn (fun j : Fin 25 => a j.1 ^^^ d (j.1 % 5))
  let b := fun i => (athetad.getD (piSource i) 0, keccakRot.getD (piSource i) 0)
  let brot := List.ofFn (fun j : Fin 25 => rotl64 (b j.1).1 (b j.1).2)
  let bl := fun i => brot.getD i 0
  let chi := List.ofFn (fun j : Fin 25 =>
    let x := j.1 % 5
    let y := j.1 / 5
    bl j.1 ^^^ (not64 (bl ((x + 1) % 5 + 5 * y)) &&& bl ((x + 2) % 5 + 5 * y)))
  List.ofFn (fun j : Fin 25 => if j.1 = 0 then chi.getD 0 0 ^^^ rc else chi.getD j.1 0)

/-- The Keccak-f[1600] permutation: 24 rounds. -/
def keccakF (st : List Nat) : List Nat :=
  keccakRC.foldl (fun s rc => keccakRound s rc) st

/-- Keccak padding (pad10*1 with domain byte `0x01`) to rate 136 bytes. -/
def keccakPad (msg : List Byte) : List Byte :=
  let padLen := 136 - msg.length % 136
  if padLen = 1 then msg ++ [0x81]
  else msg ++ [0x01] ++ List.replicate (padLen - 2) 0 ++ [0x80]

/-- Split a list into blocks of 136 bytes (structural recursion on a fuel
bound so that the definition reduces inside the kernel). -/
def toBlocksFuel : Nat → List Byte → List (List Byte)
  | 0, _ => []
  | _, [] => []
  | fuel + 1, l => l.take 136 :: toBlocksFuel fuel (l.drop 136)

/-- Split a list into blocks of 136 bytes. -/
def toBlocks (l : List Byte) : List (List Byte) :=
  toBlocksFuel l.length l

/-- Little-endian interpretation of a byte list as a lane. -/
def laneOfBytes (bs : List Byte) : Nat :=
  bs.foldr (fun b acc => b + 256 * acc) 0

/-- The 17 lanes of one 136-byte block. -/
def blockLanes (block : List Byte) : List Nat :=
  (List.range 17).map (fun i => laneOfBytes ((block.drop (8 * i)).take 8))

/-- Absorb one block into the state and permute. -/
def absorbBlock (st : List Nat) (block : List Byte) : List Nat :=
  let lanes := blockLanes block
  keccakF (List.ofFn (fun j : Fin 25 =>
    if j.1 < 17 then st.getD j.1 0 ^^^ lanes.getD j.1 0 else st.getD j.1 0))

/-- The 32-byte Keccak-256 digest of a message. -/
def keccak256 (msg : List Byte) : List Byte :=
  let st := (toBlocks (keccakPad msg)).foldl absorbBlock (List.replicate 25 0)
  ((st.flatMap (fun lane => (List.range 8).map (fun i => (lane >>> (8 * i)) % 256))).take 32)

/-- Lowercase hex digit. -/
def hexDigit (n : Nat) : Char :=
  if n < 10 then Char.ofNat (48 + n) else Char.ofNat (87 + n)

/-- Two lowercase hex characters of a byte (Rust's `{:x}` formatting of the
digest array). -/
def byteToHexChars (b : Byte) : List Char :=
  [hexDigit (b / 16), hexDigit (b % 16)]

/-- `vos::hash_data`: lowercase hex of the Keccak-256 digest of `data`. -/
def hash_data (data : List Byte) : String :=
  String.mk ((keccak256 data).flatMap byteToHexChars)

/-! ### Filesystem model

The repository area (`.orb/...`) is modelled as an association list from
paths (component lists) to byte contents, together with fault oracles for
the fallible filesystem calls: `mkdirOk` for `fs::create_dir_all`,
`createOk` for `fs::File::create` (which truncates on success), and
`writeOk` for `fs::write` / `write_all`.  A `true` oracle answer means the
call succeeds. -/

/-- Generic association-list lookup (first match wins), modelling both
`HashMap::get` and file lookup by path. -/
def assocLookup {κ α : Type} [DecidableEq κ] : List (κ × α) → κ → Option α
  | [], _ => none
  | (k, v) :: rest, q => if k = q then some v else assocLookup rest q

/-- Generic association-list overwrite, modelling both `HashMap::insert` and
an overwriting file write. -/
def assocSet {κ α : Type} [DecidableEq κ] (l : List (κ × α)) (q : κ) (v : α) :
    List (κ × α) :=
  (q, v) :: l.filter (fun kv => kv.1 ≠ q)

/-- A path inside the repository, as a list of components. -/
abbrev FsPath := List String

/-- State of the `.orb` repository area plus fault oracles for fallible
filesystem calls. -/
structure World where
  files : List (FsPath × List Byte)
  mkdirOk : FsPath → Bool
  createOk : FsPath → Bool
  writeOk : FsPath → Bool

/-- `.orb/refs/heads/main`, the tip pointer file. -/
def refPath : FsPath := [".orb", "refs", "heads", "main"]

/-- `.orb/index`, the VOS Index file. -/
def indexPath : FsPath := [".orb", "index"]

/-- I/O and protocol error kinds surfaced by the modelled operations
(`std::io::ErrorKind` values used by the sources). -/
inductive IoErr where
  | notFound
  | invalidData
  | serverError (msg : String)
  | eof
  | other
deriving DecidableEq

/-! ### Object model (`objects.rs`) and serde_json serialization

`serde_json::to_vec` of the derived `Serialize` impls emits a compact JSON
object with the fields in declaration order; strings are escaped with
`\"`, `\\`, `\b`, `\t`, `\n`, `\f`, `\r` and `\u00XX` (lowercase hex) for
other control characters, and non-ASCII characters are emitted as raw
UTF-8. -/

/-- UTF-8 encoding of one character. -/
def utf8Char (c : Char) : List Byte :=
  let n := c.toNat
  if n < 0x80 then [n]
  else if n < 0x800 then
    [0xC0 ||| (n >>> 6), 0x80 ||| (n &&& 0x3F)]
  else if n < 0x10000 then
    [0xE0 ||| (n >>> 12), 0x80 ||| ((n >>> 6) &&& 0x3F), 0x80 ||| (n &&& 0x3F)]
  else
    [0xF0 ||| (n >>> 18), 0x80 ||| ((n >>> 12) &&& 0x3F),
     0x80 ||| ((n >>> 6) &&& 0x3F), 0x80 ||| (n &&& 0x3F)]

/-- UTF-8 bytes of a string. -/
def strBytes (s : String) : List Byte :=
  s.data.flatMap utf8Char

/-- serde_json's escaping of one character inside a JSON string literal. -/
def jsonEscapeChar (c : Char) : List Char :=
  if c = Char.ofNat 34 then [Char.ofNat 92, Char.ofNat 34]
  else if c = Char.ofNat 92 then [Char.ofNat 92, Char.ofNat 92]
  else if c.toNat = 8 then [Char.ofNat 92, 'b']
  else if c.toNat = 9 then [Char.ofNat 92, 't']
  else if c.toNat = 10 then [Char.ofNat 92, 'n']
  else if c.toNat = 12 then [Char.ofNat 92, 'f']
  else if c.toNat = 13 then [Char.ofNat 92, 'r']
  else if c.toNat < 0x20 then
    [Char.ofNat 92, 'u', '0', '0', hexDigit (c.toNat / 16), hexDigit (c.toNat % 16)]
  else [c]

/-- A JSON string literal for `s`. -/
def jsonString (s : String) : String :=
  String.mk (Char.ofNat 34 :: s.data.flatMap jsonEscapeChar ++ [Char.ofNat 34])

/-- A JSON array of string literals. -/
def jsonStringList (l : List String) : String :=
  "[" ++ String.intercalate "," (l.map jsonString) ++ "]"

/-- `ObjectId` (`objects.rs`): hex string of a Keccak-256 digest. -/
abbrev ObjectId := String

/-- The `File` object: `{ root_chunk_id, size }`. -/
structure FileObj where
  root_chunk_id : ObjectId
  size : Nat
deriving DecidableEq

/-- A `DirectoryEntry`: `{ mode, name, id }`. -/
structure DirectoryEntry where
  mode : Nat
  name : String
  id : ObjectId
deriving DecidableEq

/-- The `Directory` (tree) object: `{ entries }`. -/
structure Directory where
  entries : List DirectoryEntry
deriving DecidableEq

/-- The `Commit` object:
`{ tree, parents, author, timestamp, message, signature }`. -/
structure Commit where
  tree : ObjectId
  parents : List ObjectId
  author : String
  timestamp : Int
  message : String
  signature : Option String
deriving DecidableEq

/-- `serde_json::to_string` of a `File` object. -/
def serializeFile (f : FileObj) : String :=
  "\x7b\"root_chunk_id\":" ++ jsonString f.root_chunk_id ++
    ",\"size\":" ++ toString f.size ++ "\x7d"

/-- `serde_json::to_string` of a `DirectoryEntry`. -/
def serializeDirEntry (e : DirectoryEntry) : String :=
  "\x7b\"mode\":" ++ toString e.mode ++ ",\"name\":" ++ jsonString e.name ++
    ",\"id\":" ++ jsonString e.id ++ "\x7d"

/-- `serde_json::to_string` of a `Directory` object. -/
def serializeDirectory (d : Directory) : String :=
  "\x7b\"entries\":[" ++ String.intercalate "," (d.entries.map serializeDirEntry) ++
    "]\x7d"

/-- `serde_json::to_string` of a `Commit` object. -/
def serializeCommit (c : Commit) : String :=
  "\x7b\"tree\":" ++ jsonString c.tree ++
    ",\"parents\":" ++ jsonStringList c.parents ++
    ",\"author\":" ++ jsonString c.author ++
    ",\"timestamp\":" ++ toString c.timestamp ++
    ",\"message\":" ++ jsonString c.message ++
    ",\"signature\":" ++ (match c.signature with
      | none => "null"
      | some s => jsonString s) ++ "\x7d"

/-- `vos::hash_object` applied to a `File` object:
digest of its serde_json serialization. -/
def hashFileObj (f : FileObj) : ObjectId :=
  hash_data (strBytes (serializeFile f))

/-- `vos::hash_object` applied to a `Directory` object. -/
def hashDirectoryObj (d : Directory) : ObjectId :=
  hash_data (strBytes (serializeDirectory d))

/-- `vos::hash_object` applied to a `Commit` object. -/
def hashCommitObj (c : Commit) : ObjectId :=
  hash_data (strBytes (serializeCommit c))

/-! ### Object store (`vos.rs`) -/

/-- Rust `str::split_at(2)`: `none` models the panic on a string shorter
than two characters (claims consider splits at character boundaries, so
character count stands in for Rust's byte count). -/
def splitAt2 (s : String) : Option (String × String) :=
  if 2 ≤ s.length then some (String.mk (s.data.take 2), String.mk (s.data.drop 2))
  else none

/-- The object-store directory `.orb/objects/<first 2 hex chars>` for an
OID with the given 2-character head. -/
def objectDirOf (pre : String) : FsPath := [".orb", "objects", pre]

/-- The object-store file path `.orb/objects/<2>/<62>`. -/
def objectFileOf (pre suf : String) : FsPath := [".orb", "objects", pre, suf]

/-- The store path for a full OID (the OID of `hash_data` always has 64
characters, so `split_at(2)` is `take 2` / `drop 2`). -/
def objectPathOf (oid : ObjectId) : FsPath :=
  objectFileOf (String.mk (oid.data.take 2)) (String.mk (oid.data.drop 2))

/-- `vos::save_object`: computes the digest OID; creates the fanout
directory (on failure only warns and returns the OID); writes the bytes if
the object file does not already exist (a write failure again only warns).
The OID is returned in every case. -/
def save_object (w : World) (data : List Byte) : World × ObjectId :=
  let object_id := hash_data data
  let dir := objectDirOf (String.mk (object_id.data.take 2))
  let file := objectPathOf object_id
  if w.mkdirOk dir = false then (w, object_id)
  else if (assocLookup w.files file).isSome then (w, object_id)
  else if w.writeOk file then
    ({ w with files := assocSet w.files file data }, object_id)
  else (w, object_id)

/-- `vos::store_object_with_id`: writes bytes at the asserted OID's path,
overwriting; `none` models the `split_at(2)` panic on an OID shorter than
two characters. -/
def store_object_with_id (w : World) (object_id : String) (data : List Byte) :
    Option (World × Except IoErr Unit) :=
  match splitAt2 object_id with
  | none => none
  | some (pre, suf) =>
    let dir := objectDirOf pre
    let file := objectFileOf pre suf
    if w.mkdirOk dir = false then some (w, .error .other)
    else if w.writeOk file then
      some ({ w with files := assocSet w.files file data }, .ok ())
    else some (w, .error .other)

/-- The body of `vos::chunk_and_save_file` after the `fs::read`: save the
whole contents as a single chunk, build and save the `File` object, return
the `File` object's OID and the size. -/
def chunk_and_save_data (w : World) (content : List Byte) :
    World × ObjectId × Nat :=
  let size := content.length
  let (w1, chunk_id) := save_object w content
  let file_object : FileObj := ⟨chunk_id, size⟩
  let file_id := hashFileObj file_object
  let (w2, _) := save_object w1 (strBytes (serializeFile file_object))
  (w2, file_id, size)

/-- `history::load_object_data`: read the object bytes at
`.orb/objects/<2>/<62>`; `none` models the `split_at(2)` panic,
`Except.error .notFound` a missing file. -/
def load_object_data (w : World) (object_id : ObjectId) :
    Option (Except IoErr (List Byte)) :=
  match splitAt2 object_id with
  | none => none
  | some (pre, suf) =>
    some (match assocLookup w.files (objectFileOf pre suf) with
      | some d => .ok d
      | none => .error .notFound)

/-- `main::load_object_from_vos`: same path scheme as
`history::load_object_data`. -/
def load_object_from_vos (w : World) (object_id : ObjectId) :
    Option (Except IoErr (List Byte)) :=
  match splitAt2 object_id with
  | none => none
  | some (pre, suf) =>
    some (match assocLookup w.files (objectFileOf pre suf) with
      | some d => .ok d
      | none => .error .notFound)

/-- `main::object_exists_locally`: `none` models the `split_at(2)` panic. -/
def object_exists_locally (w : World) (object_id : ObjectId) : Option Bool :=
  match splitAt2 object_id with
  | none => none
  | some (pre, suf) => some (assocLookup w.files (objectFileOf pre suf)).isSome

/-! ### The VOS Index (`index.rs`) -/

/-- `IndexEntry`: `{ path, mtime, size, file_id }`. -/
structure IndexEntry where
  path : String
  mtime : Nat
  size : Nat
  file_id : ObjectId
deriving DecidableEq

/-- `VosIndex`: schema version plus a map from path to entry (the `HashMap`
is modelled as an association list; its iteration order is not observable
by any property proved here). -/
structure VosIndex where
  version : Nat
  entries : List (String × IndexEntry)
deriving DecidableEq

/-- `VosIndex::update_entry`. -/
def VosIndex.update_entry (idx : VosIndex) (path : String) (mtime size : Nat)
    (file_id : ObjectId) : VosIndex :=
  { idx with entries := assocSet idx.entries path ⟨path, mtime, size, file_id⟩ }

/-- The working tree as seen by one `fs::read_dir` listing, recording what
each filesystem call made during `repo::traverse_and_save_tree`'s walk
returns: a regular file carries its modification time and the result of
the `fs::read` performed inside `vos::chunk_and_save_file`; a directory
carries the result of `fs::read_dir` on it; `other` is an entry of another
kind (symlink, device — metadata succeeded, neither `is_dir` nor
`is_file`); `entryErr` is a listing slot whose `entry?` fails; `metaErr`
an entry whose `fs::metadata` call fails.  List order is the
directory-listing order. -/
inductive WEntry where
  | file (name : String) (mtime : Nat) (content : Except IoErr (List Byte))
  | dir (name : String) (children : Except IoErr (List WEntry))
  | other (name : String)
  | entryErr (e : IoErr)
  | metaErr (name : String) (e : IoErr)

/-- A working-tree file as the status engine sees it: `fs::metadata` yields
`(mtime, content.length)`, `fs::read` yields `content`. -/
structure DiskFile where
  mtime : Nat
  content : List Byte
deriving DecidableEq

/-- The working tree flattened to relative path strings, as produced by
`status::scan_working_directory_fast` (the `.orb` area is separate). -/
abbrev Disk := List (String × DiskFile)

/-- `vos::chunk_and_save_file`: read the file, then chunk and save. -/
def chunk_and_save_file (w : World) (disk : Disk) (path : String) :
    Except IoErr (World × ObjectId × Nat) :=
  match assocLookup disk path with
  | none => .error .notFound
  | some f => .ok (chunk_and_save_data w f.content)

/-- `VosIndex::has_file_changed`: untracked or deleted counts as changed,
otherwise compare `(mtime, size)` against the entry. -/
def has_file_changed (idx : VosIndex) (path : String) (disk : Disk) :
    Except IoErr Bool :=
  match assocLookup idx.entries path with
  | none => .ok true
  | some entry =>
    match assocLookup disk path with
    | none => .ok true
    | some f => .ok (entry.mtime != f.mtime || entry.size != f.content.length)

/-! ### Snapshot pipeline (`repo.rs`) -/

/-- The hard-coded author string of `repo::save_snapshot`. -/
def snapshotAuthor : String := "Orb Developer <dev@orbit.vcs>"

/-- The commit record constructed by `repo::save_snapshot` (step 5):
`parents` is empty iff the parent id string is empty. -/
def snapshot_commit (root_dir_id parent_id : ObjectId) (now : Int)
    (message : String) : Commit :=
  { tree := root_dir_id
    parents := if parent_id = "" then [] else [parent_id]
    author := snapshotAuthor
    timestamp := now
    message := message
    signature := none }

/-- `repo::get_head_commit_id`: the source is a stub —
"For a simple MVP, let's return an empty string, signifying a root
commit." — so it returns `Ok("")` unconditionally. -/
def get_head_commit_id : Except IoErr ObjectId := .ok ""

/-- `repo::update_head`: `create_dir_all` on `.orb/refs/heads`, then
`File::create` on the ref file (which truncates it to empty), then
`write_all` of the commit id. -/
def update_head (w : World) (commit_id : ObjectId) : World × Except IoErr Unit :=
  if w.mkdirOk [".orb", "refs", "heads"] = false then (w, .error .other)
  else if w.createOk refPath = false then (w, .error .other)
  else
    let w1 := { w with files := assocSet w.files refPath [] }
    if w1.writeOk refPath then
      ({ w1 with files := assocSet w1.files refPath (strBytes commit_id) }, .ok ())
    else (w1, .error .other)

mutual

/-- `repo::traverse_and_save_tree`: `fs::read_dir` on the directory (a
failure propagates via `?` before anything is written), walk the listing,
then hash and save the resulting `Directory` object, returning its OID. -/
def traverse_and_save_tree (w : World) (listing : Except IoErr (List WEntry))
    (current_path : String) (idx : VosIndex) :
    World × VosIndex × Except IoErr ObjectId :=
  match listing with
  | .error e => (w, idx, .error e)
  | .ok entries =>
    match traverseEntries w entries current_path idx with
    | (w1, idx1, .error e) => (w1, idx1, .error e)
    | (w1, idx1, .ok dirEntries) =>
      let directory_obj : Directory := ⟨dirEntries⟩
      let dir_id := hashDirectoryObj directory_obj
      let (w2, _) := save_object w1 (strBytes (serializeDirectory directory_obj))
      (w2, idx1, .ok dir_id)

/-- The loop body of `repo::traverse_and_save_tree`: skip `.orb` and
non-file non-directory entries, chunk and index files, recurse into
directories, preserving directory-listing order.  Each `?` of the source
loop is kept: an `entry?`, `fs::metadata`, `fs::read` (inside
`vos::chunk_and_save_file`) or recursive error abandons the walk,
propagating the error together with the store writes made so far. -/
def traverseEntries (w : World) (entries : List WEntry)
    (current_path : String) (idx : VosIndex) :
    World × VosIndex × Except IoErr (List DirectoryEntry) :=
  match entries with
  | [] => (w, idx, .ok [])
  | .entryErr e :: _ => (w, idx, .error e)
  | .other _ :: rest => traverseEntries w rest current_path idx
  | .metaErr name e :: rest =>
    if name = ".orb" then traverseEntries w rest current_path idx
    else (w, idx, .error e)
  | .file name mtime content :: rest =>
    if name = ".orb" then traverseEntries w rest current_path idx
    else
      match content with
      | .error e => (w, idx, .error e)
      | .ok c =>
        let full_path := if current_path = "" then name
          else current_path ++ "/" ++ name
        let (w1, file_id, _size) := chunk_and_save_data w c
        let idx1 := idx.update_entry full_path mtime c.length file_id
        match traverseEntries w1 rest current_path idx1 with
        | (w2, idx2, .error e) => (w2, idx2, .error e)
        | (w2, idx2, .ok des) =>
          (w2, idx2, .ok (⟨0o100644, name, file_id⟩ :: des))
  | .dir name children :: rest =>
    if name = ".orb" then traverseEntries w rest current_path idx
    else
      let full_path := if current_path = "" then name
        else current_path ++ "/" ++ name
      match traverse_and_save_tree w children full_path idx with
      | (w1, idx1, .error e) => (w1, idx1, .error e)
      | (w1, idx1, .ok dir_id) =>
        match traverseEntries w1 rest current_path idx1 with
        | (w2, idx2, .error e) => (w2, idx2, .error e)
        | (w2, idx2, .ok des) =>
          (w2, idx2, .ok (⟨0o040000, name, dir_id⟩ :: des))

end

/-- The VOS Index file contents written by `VosIndex::save`
(`serde_json::to_string_pretty`; modelled deterministically — the pretty
layout and `HashMap` order are not observable by any property here). -/
def serializeIndex (idx : VosIndex) : String :=
  "\x7b\"version\":" ++ toString idx.version ++ ",\"entries\":\x7b" ++
    String.intercalate "," (idx.entries.map (fun kv =>
      jsonString kv.1 ++ ":\x7b\"path\":" ++ jsonString kv.2.path ++
        ",\"mtime\":" ++ toString kv.2.mtime ++
        ",\"size\":" ++ toString kv.2.size ++
        ",\"file_id\":" ++ jsonString kv.2.file_id ++ "\x7d")) ++
    "\x7d\x7d"

/-- `repo::save_snapshot`.  `loaded` is the result of
`VosIndex::load().unwrap_or_else(|_| VosIndex::new())`, whose entries are
immediately cleared; `workTree` is the result of `fs::read_dir` on the
repository root; `now` is the clock reading.  A working-tree walk error is
propagated by the `?` on `traverse_and_save_tree` before the index, the
commit or the tip are touched; an `index.save()` failure only warns; an
`update_head` failure is returned. -/
def save_snapshot (w : World) (loaded : VosIndex)
    (workTree : Except IoErr (List WEntry)) (message : String) (now : Int) :
    World × Except IoErr Unit :=
  match get_head_commit_id with
  | .error e => (w, .error e)
  | .ok parent_id =>
    let idx0 : VosIndex := { loaded with entries := [] }
    match traverse_and_save_tree w workTree "" idx0 with
    | (w1, _, .error e) => (w1, .error e)
    | (w1, idx1, .ok root_dir_id) =>
      let w2 :=
        if w1.writeOk indexPath then
          { w1 with files := assocSet w1.files indexPath (strBytes (serializeIndex idx1)) }
        else w1
      let commit_obj := snapshot_commit root_dir_id parent_id now message
      let commit_id := hashCommitObj commit_obj
      let (w3, _) := save_object w2 (strBytes (serializeCommit commit_obj))
      match update_head w3 commit_id with
      | (w4, .error e) => (w4, .error e)
      | (w4, .ok _) => (w4, .ok ())

/-! ### Status engine (`status.rs`) -/

/-- `status::FileStatus`. -/
inductive FileStatus where
  | Modified
  | Untracked
  | Deleted
deriving DecidableEq

/-- Step 2 of `status::check_status`: iterate the tracked entries,
classifying missing files as `Deleted` and queueing files whose metadata
diverge for a full (content hash) check. -/
def scanTracked (idx : VosIndex) (disk : Disk) :
    List (String × IndexEntry) → List (String × FileStatus) × List String
  | [] => ([], [])
  | (path, _entry) :: rest =>
    let (cs, fc) := scanTracked idx disk rest
    if assocLookup disk path = none then ((path, .Deleted) :: cs, fc)
    else
      match has_file_changed idx path disk with
      | .ok true => (cs, path :: fc)
      | .ok false => (cs, fc)
      | .error _ => (cs, path :: fc)

/-- Step 3 of `status::check_status`: for each queued path still on disk,
recompute the content OID through `vos::chunk_and_save_file` (which writes
the chunk and `File` objects into the store) and classify as `Modified`
when it differs from the indexed `file_id`.  The outer `none` models the
panic of `index.entries.get(&path).unwrap()`; a `chunk_and_save_file`
error is propagated (`?`). -/
def fullCheckPass (idx : VosIndex) (disk : Disk) (w : World) :
    List String → Option (World × Except IoErr (List (String × FileStatus)))
  | [] => some (w, .ok [])
  | path :: rest =>
    if (assocLookup disk path).isSome then
      match chunk_and_save_file w disk path with
      | .error e => some (w, .error e)
      | .ok (w1, current_file_id, _) =>
        match assocLookup idx.entries path with
        | none => none
        | some index_entry =>
          match fullCheckPass idx disk w1 rest with
          | none => none
          | some (w2, .error e) => some (w2, .error e)
          | some (w2, .ok cs) =>
            some (w2, .ok (if current_file_id ≠ index_entry.file_id
              then (path, .Modified) :: cs else cs))
    else fullCheckPass idx disk w rest

/-- Step 4 of `status::check_status`: files on disk with no index entry are
`Untracked`. -/
def scanUntracked (idx : VosIndex) : Disk → List (String × FileStatus)
  | [] => []
  | (path, _) :: rest =>
    if assocLookup idx.entries path = none then
      (path, .Untracked) :: scanUntracked idx rest
    else scanUntracked idx rest

/-- `status::check_status` over the loaded index and the working tree:
returns the classified change list (display only reads it).  An empty
index returns early with no changes reported.  The outer `none` models the
`unwrap` panic inside step 3. -/
def check_status (idx : VosIndex) (disk : Disk) (w : World) :
    Option (World × Except IoErr (List (String × FileStatus))) :=
  if idx.entries = [] then some (w, .ok [])
  else
    let (cs2, fc) := scanTracked idx disk idx.entries
    match fullCheckPass idx disk w fc with
    | none => none
    | some (w1, .error e) => some (w1, .error e)
    | some (w1, .ok cs3) =>
      some (w1, .ok (cs2 ++ cs3 ++ scanUntracked idx disk))

/-! ### VNP messages and framing (`vnp.rs`)

A session stream is modelled as the list of framed messages in order;
`recv_command` pops the next frame (`eof` models a read on a closed
stream). -/

/-- `VnpCommand` — the complete set of variants declared in `vnp.rs`. -/
inductive VnpCommand where
  | Have (ids : List ObjectId)
  | Want (ids : List ObjectId)
  | Get (id : ObjectId)
  | ObjectHeader (id : ObjectId) (object_type : String) (size : Nat)
  | ObjectData (data : List Byte)
  | Push (ids : List ObjectId)
  | Pull (ids : List ObjectId)
  | SendObject (id : ObjectId)
  | GetCompleteGraph (id : ObjectId)
  | GetTree (id : ObjectId)
  | GetFile (id : ObjectId)
  | ListRepositories
  | SelectRepository (name : String)
  | CreateRepository (name : String)
  | RepositoryList (names : List String)
  | RepositorySelected (name : String)
  | Ready
  | Ok
  | Error (msg : String)
deriving DecidableEq

/-- The serde external tag (the variant name) under which a `VnpCommand`
is serialized on the wire. -/
def vnpTag : VnpCommand → String
  | .Have _ => "Have"
  | .Want _ => "Want"
  | .Get _ => "Get"
  | .ObjectHeader _ _ _ => "ObjectHeader"
  | .ObjectData _ => "ObjectData"
  | .Push _ => "Push"
  | .Pull _ => "Pull"
  | .SendObject _ => "SendObject"
  | .GetCompleteGraph _ => "GetCompleteGraph"
  | .GetTree _ => "GetTree"
  | .GetFile _ => "GetFile"
  | .ListRepositories => "ListRepositories"
  | .SelectRepository _ => "SelectRepository"
  | .CreateRepository _ => "CreateRepository"
  | .RepositoryList _ => "RepositoryList"
  | .RepositorySelected _ => "RepositorySelected"
  | .Ready => "Ready"
  | .Ok => "Ok"
  | .Error _ => "Error"

/-- `vnp::recv_command`: read the next frame; fails on a closed stream. -/
def recv_command (stream : List VnpCommand) :
    Except IoErr (VnpCommand × List VnpCommand) :=
  match stream with
  | [] => .error .eof
  | c :: rest => .ok (c, rest)

/-- The accumulation loop of `vnp::recv_object_data`: collect `ObjectData`
payloads while fewer than `expected_size` bytes have arrived; an `Error`
frame becomes a server error, any other frame is the `InvalidData`
protocol error "Expected ObjectData".  Structural recursion on the frame
stream (each iteration consumes one frame). -/
def recvObjectDataLoop (expected_size : Nat) :
    List VnpCommand → List Byte → Except IoErr (List Byte × List VnpCommand)
  | stream, received =>
    if received.length < expected_size then
      match stream with
      | [] => .error .eof
      | .ObjectData chunk :: rest =>
        recvObjectDataLoop expected_size rest (received ++ chunk)
      | .Error msg :: _ => .error (.serverError msg)
      | _ :: _ => .error .invalidData
    else .ok (received, stream)

/-- `vnp::recv_object_data`. -/
def recv_object_data (stream : List VnpCommand) (expected_size : Nat) :
    Except IoErr (List Byte × List VnpCommand) :=
  recvObjectDataLoop expected_size stream []

/-! ### A JSON value model for `serde_json::from_slice`

`store_received_object` validates downloaded bytes by parsing them as a
`Commit`, `Directory` or `File` before storing.  We model `serde_json`
with a JSON parser over the raw bytes: UTF-8 decoding, the JSON grammar
(no leading zeros, string escapes with surrogate pairs), and struct
decoding that ignores unknown fields, rejects duplicates, and bound-checks
integer fields. -/

/-- JSON values.  Integers outside serde_json's `u64`/`i64` range and all
non-integer numbers collapse to `jfloat` (the struct decoders reject both
anyway). -/
inductive Json where
  | null
  | bool (b : Bool)
  | jint (i : Int)
  | jfloat
  | str (s : String)
  | arr (elems : List Json)
  | obj (fields : List (String × Json))

/-- UTF-8 decoding with validity checks (continuation bytes, overlong
encodings, surrogates, range). -/
def utf8Decode : List Byte → Option (List Char)
  | [] => some []
  | b :: rest =>
    if b < 0x80 then (utf8Decode rest).map (Char.ofNat b :: ·)
    else if b < 0xC2 then none
    else if b < 0xE0 then
      match rest with
      | b2 :: r =>
        if 0x80 ≤ b2 ∧ b2 < 0xC0 then
          (utf8Decode r).map (Char.ofNat (((b &&& 0x1F) <<< 6) ||| (b2 &&& 0x3F)) :: ·)
        else none
      | _ => none
    else if b < 0xF0 then
      match rest with
      | b2 :: b3 :: r =>
        let n := ((b &&& 0x0F) <<< 12) ||| ((b2 &&& 0x3F) <<< 6) ||| (b3 &&& 0x3F)
        if 0x80 ≤ b2 ∧ b2 < 0xC0 ∧ 0x80 ≤ b3 ∧ b3 < 0xC0 ∧ 0x800 ≤ n ∧
            ¬(0xD800 ≤ n ∧ n < 0xE000) then
          (utf8Decode r).map (Char.ofNat n :: ·)
        else none
      | _ => none
    else if b < 0xF5 then
      match rest with
      | b2 :: b3 :: b4 :: r =>
        let n := ((b &&& 0x07) <<< 18) ||| ((b2 &&& 0x3F) <<< 12) |||
          ((b3 &&& 0x3F) <<< 6) ||| (b4 &&& 0x3F)
        if 0x80 ≤ b2 ∧ b2 < 0xC0 ∧ 0x80 ≤ b3 ∧ b3 < 0xC0 ∧ 0x80 ≤ b4 ∧ b4 < 0xC0 ∧
            0x10000 ≤ n ∧ n < 0x110000 then
          (utf8Decode r).map (Char.ofNat n :: ·)
        else none
      | _ => none
    else none

/-- Skip JSON whitespace. -/
def skipWs : List Char → List Char
  | c :: rest =>
    if c = ' ' ∨ c = Char.ofNat 9 ∨ c = Char.ofNat 10 ∨ c = Char.ofNat 13 then
      skipWs rest
    else c :: rest
  | [] => []

/-- Value of one hex digit. -/
def hexVal (c : Char) : Option Nat :=
  if '0' ≤ c ∧ c ≤ '9' then some (c.toNat - 48)
  else if 'a' ≤ c ∧ c ≤ 'f' then some (c.toNat - 87)
  else if 'A' ≤ c ∧ c ≤ 'F' then some (c.toNat - 55)
  else none

/-- Parse the body of a JSON string (after the opening quote), handling
escapes and surrogate pairs; rejects unescaped control characters. -/
def parseStringBody : List Char → List Char → Option (String × List Char)
  | [], _ => none
  | c :: rest, acc =>
    if c = Char.ofNat 34 then some (String.mk acc.reverse, rest)
    else if c = Char.ofNat 92 then
      match rest with
      | [] => none
      | e :: r2 =>
        if e = Char.ofNat 34 ∨ e = Char.ofNat 92 ∨ e = '/' then
          parseStringBody r2 (e :: acc)
        else if e = 'b' then parseStringBody r2 (Char.ofNat 8 :: acc)
        else if e = 't' then parseStringBody r2 (Char.ofNat 9 :: acc)
        else if e = 'n' then parseStringBody r2 (Char.ofNat 10 :: acc)
        else if e = 'f' then parseStringBody r2 (Char.ofNat 12 :: acc)
        else if e = 'r' then parseStringBody r2 (Char.ofNat 13 :: acc)
        else if e = 'u' then
          match r2 with
          | h1 :: h2 :: h3 :: h4 :: r3 =>
            match hexVal h1, hexVal h2, hexVal h3, hexVal h4 with
            | some d1, some d2, some d3, some d4 =>
              let n := ((d1 * 16 + d2) * 16 + d3) * 16 + d4
              if 0xD800 ≤ n ∧ n < 0xDC00 then
                match r3 with
                | u1 :: u2 :: g1 :: g2 :: g3 :: g4 :: r4 =>
                  if u1 = Char.ofNat 92 ∧ u2 = 'u' then
                    match hexVal g1, hexVal g2, hexVal g3, hexVal g4 with
                    | some e1, some e2, some e3, some e4 =>
                      let m := ((e1 * 16 + e2) * 16 + e3) * 16 + e4
                      if 0xDC00 ≤ m ∧ m < 0xE000 then
                        parseStringBody r4
                          (Char.ofNat (0x10000 + (n - 0xD800) * 0x400 + (m - 0xDC00)) :: acc)
                      else none
                    | _, _, _, _ => none
                  else none
                | _ => none
              else if 0xDC00 ≤ n ∧ n < 0xE000 then none
              else parseStringBody r3 (Char.ofNat n :: acc)
            | _, _, _, _ => none
          | _ => none
        else none
    else if c.toNat < 0x20 then none
    else parseStringBody rest (c :: acc)

/-- Take a run of decimal digits. -/
def takeDigits : List Char → List Char × List Char
  | [] => ([], [])
  | c :: rest =>
    if c.isDigit then
      let (ds, r) := takeDigits rest
      (c :: ds, r)
    else ([], c :: rest)

/-- Numeric value of a digit run. -/
def digitsVal (ds : List Char) : Nat :=
  ds.foldl (fun acc c => acc * 10 + (c.toNat - 48)) 0

/-- Parse a JSON number token: optional minus, integer part without leading
zeros, optional fraction and exponent (which make it a float); integers
outside serde_json's `i64`/`u64` range also collapse to `jfloat`. -/
def parseNumberToken (s : List Char) : Option (Json × List Char) :=
  let (neg, s1) := match s with
    | '-' :: r => (true, r)
    | _ => (false, s)
  match takeDigits s1 with
  | ([], _) => none
  | (d :: ds, r) =>
    if d = '0' ∧ ds ≠ [] then none
    else
      let intVal : Int := (digitsVal (d :: ds) : Int)
      let (isFloat1, r2) := match r with
        | '.' :: rf =>
          (match takeDigits rf with
           | ([], _) => none
           | (_ :: _, rr) => some rr)
          |>.elim (none) (fun rr => (some true, rr)) |>.elim (none, r) id
        | _ => (some false, r)
      match isFloat1 with
      | none => none
      | some isFloat =>
        let expRes : Option (Bool × List Char) := match r2 with
          | c :: re =>
            if c = 'e' ∨ c = 'E' then
              let re2 := match re with
                | '+' :: rr => rr
                | '-' :: rr => rr
                | _ => re
              match takeDigits re2 with
              | ([], _) => none
              | (_ :: _, rr) => some (true, rr)
            else some (isFloat, c :: re)
          | [] => some (isFloat, [])
        match expRes with
        | none => none
        | some (float2, r3) =>
          if float2 then some (.jfloat, r3)
          else
            let v : Int := if neg then -intVal else intVal
            if -(2 ^ 63) ≤ v ∧ v < 2 ^ 64 then some (.jint v, r3)
            else some (.jfloat, r3)

mutual

/-- Parse one JSON value (fuel-bounded recursive descent). -/
def parseValue : Nat → List Char → Option (Json × List Char)
  | 0, _ => none
  | fuel + 1, s =>
    match skipWs s with
    | [] => none
    | c :: rest =>
      if c = 'n' then
        match rest with
        | 'u' :: 'l' :: 'l' :: r => some (.null, r)
        | _ => none
      else if c = 't' then
        match rest with
        | 'r' :: 'u' :: 'e' :: r => some (.bool true, r)
        | _ => none
      else if c = 'f' then
        match rest with
        | 'a' :: 'l' :: 's' :: 'e' :: r => some (.bool false, r)
        | _ => none
      else if c = Char.ofNat 34 then
        (parseStringBody rest []).map (fun (s, r) => (.str s, r))
      else if c = '[' then parseArrayElems fuel rest
      else if c = Char.ofNat 123 then parseObjFields fuel rest
      else parseNumberToken (c :: rest)

/-- Parse the elements after `[`. -/
def parseArrayElems : Nat → List Char → Option (Json × List Char)
  | 0, _ => none
  | fuel + 1, s =>
    match skipWs s with
    | ']' :: r => some (.arr [], r)
    | s' =>
      (parseValue fuel s').bind (fun (v, r) => parseArrayTail fuel r [v])

/-- Parse `, value`* `]`. -/
def parseArrayTail : Nat → List Char → List Json → Option (Json × List Char)
  | 0, _, _ => none
  | fuel + 1, s, acc =>
    match skipWs s with
    | ']' :: r => some (.arr acc.reverse, r)
    | ',' :: r =>
      (parseValue fuel r).bind (fun (v, r2) => parseArrayTail fuel r2 (v :: acc))
    | _ => none

/-- Parse the fields after `{`. -/
def parseObjFields : Nat → List Char → Option (Json × List Char)
  | 0, _ => none
  | fuel + 1, s =>
    match skipWs s with
    | c :: r =>
      if c = Char.ofNat 125 then some (.obj [], r)
      else if c = Char.ofNat 34 then
        (parseStringBody r []).bind (fun (k, r2) =>
          match skipWs r2 with
          | ':' :: r3 =>
            (parseValue fuel r3).bind (fun (v, r4) =>
              parseObjTail fuel r4 [(k, v)])
          | _ => none)
      else none
    | [] => none

/-- Parse `, "key": value`* `}`. -/
def parseObjTail : Nat → List Char → List (String × Json) →
    Option (Json × List Char)
  | 0, _, _ => none
  | fuel + 1, s, acc =>
    match skipWs s with
    | c :: r =>
      if c = Char.ofNat 125 then some (.obj acc.reverse, r)
      else if c = ',' then
        match skipWs r with
        | q :: r2 =>
          if q = Char.ofNat 34 then
            (parseStringBody r2 []).bind (fun (k, r3) =>
              match skipWs r3 with
              | ':' :: r4 =>
                (parseValue fuel r4).bind (fun (v, r5) =>
                  parseObjTail fuel r5 ((k, v) :: acc))
              | _ => none)
          else none
        | [] => none
      else none
    | [] => none

end

/-- `serde_json::from_slice` down to a `Json` value: UTF-8 decode, parse
one value, allow only trailing whitespace. -/
def parseJson (data : List Byte) : Option Json :=
  (utf8Decode data).bind (fun chars =>
    (parseValue (chars.length + 1) chars).bind (fun (v, rest) =>
      if skipWs rest = [] then some v else none))

/-- All values stored under field `k` (serde rejects duplicate fields, so
decoding demands exactly one occurrence). -/
def jFieldOcc (fields : List (String × Json)) (k : String) : List Json :=
  fields.filterMap (fun kv => if kv.1 = k then some kv.2 else none)

/-- Required `String` field. -/
def reqStrField (fields : List (String × Json)) (k : String) : Option String :=
  match jFieldOcc fields k with
  | [.str s] => some s
  | _ => none

/-- Required `Vec<String>` field. -/
def reqStrListField (fields : List (String × Json)) (k : String) :
    Option (List String) :=
  match jFieldOcc fields k with
  | [.arr l] => l.mapM (fun j => match j with
      | .str s => some s
      | _ => none)
  | _ => none

/-- Required `i64` field. -/
def reqI64Field (fields : List (String × Json)) (k : String) : Option Int :=
  match jFieldOcc fields k with
  | [.jint i] => if -(2 ^ 63) ≤ i ∧ i < 2 ^ 63 then some i else none
  | _ => none

/-- Required `usize` (64-bit) field. -/
def reqUsizeField (fields : List (String × Json)) (k : String) : Option Nat :=
  match jFieldOcc fields k with
  | [.jint i] => if 0 ≤ i ∧ i < 2 ^ 64 then some i.toNat else none
  | _ => none

/-- Required `u32` field. -/
def reqU32Field (fields : List (String × Json)) (k : String) : Option Nat :=
  match jFieldOcc fields k with
  | [.jint i] => if 0 ≤ i ∧ i < 2 ^ 32 then some i.toNat else none
  | _ => none

/-- `Option<String>` field: missing or `null` decodes to `none`. -/
def optStrField (fields : List (String × Json)) (k : String) :
    Option (Option String) :=
  match jFieldOcc fields k with
  | [] => some none
  | [.null] => some none
  | [.str s] => some (some s)
  | _ => none

/-- `serde_json::from_slice::<Commit>`. -/
def parseCommitBytes (data : List Byte) : Option Commit :=
  (parseJson data).bind (fun j =>
    match j with
    | .obj fields =>
      (reqStrField fields "tree").bind (fun tree =>
      (reqStrListField fields "parents").bind (fun parents =>
      (reqStrField fields "author").bind (fun author =>
      (reqI64Field fields "timestamp").bind (fun timestamp =>
      (reqStrField fields "message").bind (fun message =>
      (optStrField fields "signature").map (fun signature =>
        ⟨tree, parents, author, timestamp, message, signature⟩))))))
    | _ => none)

/-- `serde_json::from_slice::<DirectoryEntry>` on one array element. -/
def parseDirEntryJson (j : Json) : Option DirectoryEntry :=
  match j with
  | .obj fields =>
    (reqU32Field fields "mode").bind (fun mode =>
    (reqStrField fields "name").bind (fun name =>
    (reqStrField fields "id").map (fun id =>
      ⟨mode, name, id⟩)))
  | _ => none

/-- `serde_json::from_slice::<Directory>`. -/
def parseDirectoryBytes (data : List Byte) : Option Directory :=
  (parseJson data).bind (fun j =>
    match j with
    | .obj fields =>
      (match jFieldOcc fields "entries" with
       | [.arr l] => (l.mapM parseDirEntryJson).map Directory.mk
       | _ => none)
    | _ => none)

/-- `serde_json::from_slice::<File>`. -/
def parseFileBytes (data : List Byte) : Option FileObj :=
  (parseJson data).bind (fun j =>
    match j with
    | .obj fields =>
      (reqStrField fields "root_chunk_id").bind (fun root_chunk_id =>
      (reqUsizeField fields "size").map (fun size =>
        ⟨root_chunk_id, size⟩))
    | _ => none)

/-! ### Sync download step (`main.rs`) -/

/-- `main::store_received_object`: validate the payload as the announced
type, then store it under the asserted id; `none` models the
`split_at(2)` panic inside `store_object_with_id`. -/
def store_received_object (w : World) (id : String) (object_type : String)
    (data : List Byte) : Option (World × Except IoErr Unit) :=
  match object_type with
  | "commit" =>
    match parseCommitBytes data with
    | none => some (w, .error .invalidData)
    | some _ => store_object_with_id w id data
  | "tree" =>
    match parseDirectoryBytes data with
    | none => some (w, .error .invalidData)
    | some _ => store_object_with_id w id data
  | "file" =>
    match parseFileBytes data with
    | none => some (w, .error .invalidData)
    | some _ => store_object_with_id w id data
  | _ => some (w, .error .other)

/-- One iteration of the download loop of `main::run_sync_with_stream`
(lines 283–307), after `Get(commit_id)` was sent: receive the
`ObjectHeader`, accumulate the announced number of payload bytes, then
store (a store failure only warns; a receive failure propagates with
nothing stored).  `none` models the store panic on a short id. -/
def fetch_one_object (w : World) (stream : List VnpCommand) :
    Option (World × Except IoErr (List VnpCommand)) :=
  match recv_command stream with
  | .error e => some (w, .error e)
  | .ok (.ObjectHeader id object_type size, rest) =>
    match recv_object_data rest size with
    | .error e => some (w, .error e)
    | .ok (object_data, rest2) =>
      match store_received_object w id object_type object_data with
      | none => none
      | some (w1, _storeResult) => some (w1, .ok rest2)
  | .ok (.Error msg, _) => some (w, .error (.serverError msg))
  | .ok (_, _) => some (w, .error .invalidData)

/-! ### URL parsing (`client_tls.rs`)

Rust's byte indices coincide with character positions on the ASCII URLs
considered, so strings are modelled at the character level. -/

/-- Rust `str::starts_with`. -/
def startsWithL (pat s : List Char) : Bool :=
  List.isPrefixOf pat s

/-- Rust `str::contains` for a pattern string. -/
def containsSubstr : List Char → List Char → Bool
  | s, pat =>
    if List.isPrefixOf pat s then true
    else match s with
      | [] => false
      | _ :: rest => containsSubstr rest pat

/-- Rust `str::trim_start_matches`: repeatedly strip the prefix while it
matches (fuel-bounded by the string length for structural recursion). -/
def trimStartMatchesFuel (pat : List Char) : Nat → List Char → List Char
  | 0, s => s
  | fuel + 1, s =>
    if pat ≠ [] ∧ List.isPrefixOf pat s then
      trimStartMatchesFuel pat fuel (s.drop pat.length)
    else s

/-- Rust `str::trim_start_matches`. -/
def trimStartMatches (s pat : List Char) : List Char :=
  trimStartMatchesFuel pat s.length s

/-- Rust `str::find` for a single character. -/
def findCharIdx : List Char → Char → Option Nat
  | [], _ => none
  | c :: rest, t => if c = t then some 0 else (findCharIdx rest t).map (· + 1)

/-- Rust `u16::from_str`: optional leading `+`, at least one ASCII digit,
overflow checked. -/
def parseU16 (s : List Char) : Option Nat :=
  let digits := match s with
    | '+' :: rest => rest
    | _ => s
  if digits = [] then none
  else if digits.all (·.isDigit) then
    let v := digitsVal digits
    if v < 65536 then some v else none
  else none

/-- `client_tls::requires_tls`. -/
def requires_tls (url : String) : Bool :=
  startsWithL "https://".data url.data ||
  startsWithL "orbits://".data url.data ||
  containsSubstr url.data ":443".data ||
  containsSubstr url.data ":8443".data

/-- `client_tls::OrbitUrl`. -/
structure OrbitUrl where
  host : String
  port : Nat
  use_tls : Bool
  server_name : String
  repository : Option String
deriving DecidableEq

/-- `client_tls::OrbitUrl::parse`; `none` models the `Err` propagated from
the port parse. -/
def OrbitUrl.parse (url : String) : Option OrbitUrl :=
  let use_tls := requires_tls url
  let clean_url :=
    trimStartMatches
      (trimStartMatches
        (trimStartMatches
          (trimStartMatches url.data "https://".data)
          "http://".data)
        "orbits://".data)
      "orbit://".data
  let hostPort : Option (List Char × Nat) :=
    match findCharIdx clean_url ':' with
    | some colon_pos =>
      let host := clean_url.take colon_pos
      let remainder := clean_url.drop (colon_pos + 1)
      let port_str := match findCharIdx remainder '/' with
        | some slash_pos => remainder.take slash_pos
        | none => remainder
      (parseU16 port_str).map (fun port => (host, port))
    | none =>
      let host := match findCharIdx clean_url '/' with
        | some slash_pos => clean_url.take slash_pos
        | none => clean_url
      some (host, if use_tls then 443 else 8080)
  hostPort.map (fun (host, port) =>
    let server_name := host
    let repository : Option (List Char) :=
      match findCharIdx clean_url '/' with
      | some slash_pos =>
        if (findCharIdx clean_url ':').isSome then
          match findCharIdx clean_url ':' with
          | some port_start =>
            let after_port := clean_url.drop (port_start + 1)
            match findCharIdx after_port '/' with
            | some repo_start => some (after_port.drop (repo_start + 1))
            | none => none
          | none => none
        else some (clean_url.drop (slash_pos + 1))
      | none => none
    { host := String.mk host
      port := port
      use_tls := use_tls
      server_name := String.mk server_name
      repository := repository.map String.mk })

/-! ### Helper lemmas -/

theorem keccakRound_length (st : List Nat) (rc : Nat) :
    (keccakRound st rc).length = 25 := by
  unfold keccakRound
  exact List.length_ofFn _

theorem foldl_keccakRound_length (l : List Nat) (st : List Nat)
    (h : st.length = 25) : (l.foldl keccakRound st).length = 25 := by
  induction l generalizing st with
  | nil => simpa using h
  | cons a l ih => exact ih _ (keccakRound_length _ _)

theorem keccakF_length (st : List Nat) (h : st.length = 25) :
    (keccakF st).length = 25 :=
  foldl_keccakRound_length _ _ h

theorem absorbBlock_length (st : List Nat) (block : List Byte) :
    (absorbBlock st block).length = 25 :=
  keccakF_length _ (List.length_ofFn _)

theorem foldl_absorbBlock_length (blocks : List (List Byte)) (st : List Nat)
    (h : st.length = 25) : (blocks.foldl absorbBlock st).length = 25 := by
  induction blocks generalizing st with
  | nil => simpa using h
  | cons b bs ih => exact ih _ (absorbBlock_length _ _)

theorem length_flatMap_lanes (st : List Nat) :
    (st.flatMap (fun lane =>
      (List.range 8).map (fun i => (lane >>> (8 * i)) % 256))).length =
    8 * st.length := by
  induction st with
  | nil => rfl
  | cons a l ih => simp [ih]; ring

theorem keccak256_length (msg : List Byte) : (keccak256 msg).length = 32 := by
  unfold keccak256
  rw [List.length_take, length_flatMap_lanes,
    foldl_absorbBlock_length _ _ (List.length_replicate _ _)]
  decide

theorem length_flatMap_hexChars (l : List Byte) :
    (l.flatMap byteToHexChars).length = 2 * l.length := by
  induction l with
  | nil => rfl
  | cons a l ih => simp [byteToHexChars, ih]; ring

theorem hash_data_length (data : List Byte) : (hash_data data).length = 64 := by
  show ((keccak256 data).flatMap byteToHexChars).length = 64
  rw [length_flatMap_hexChars, keccak256_length]

theorem assocLookup_assocSet_self {κ α : Type} [DecidableEq κ]
    (l : List (κ × α)) (k : κ) (v : α) :
    assocLookup (assocSet l k v) k = some v := by
  simp [assocLookup, assocSet]

theorem assocLookup_filter_ne {κ α : Type} [DecidableEq κ]
    (l : List (κ × α)) (k q : κ) (h : q ≠ k) :
    assocLookup (l.filter (fun kv => kv.1 ≠ k)) q = assocLookup l q := by
  induction l with
  | nil => rfl
  | cons a l ih =>
    obtain ⟨a1, a2⟩ := a
    by_cases hk : a1 = k
    · have h1 : List.filter (fun kv => kv.1 ≠ k) ((a1, a2) :: l) =
          List.filter (fun kv => kv.1 ≠ k) l := by
        simp [List.filter_cons, hk]
      rw [h1, ih]
      show assocLookup l q = assocLookup ((a1, a2) :: l) q
      simp only [assocLookup]
      rw [if_neg (by rw [hk]; exact fun hq => h hq.symm)]
    · have h1 : List.filter (fun kv => kv.1 ≠ k) ((a1, a2) :: l) =
          (a1, a2) :: List.filter (fun kv => kv.1 ≠ k) l := by
        simp [List.filter_cons, hk]
      rw [h1]
      simp only [assocLookup]
      by_cases hq : a1 = q
      · rw [if_pos hq, if_pos hq]
      · rw [if_neg hq, if_neg hq]
        exact ih

theorem assocLookup_assocSet_ne {κ α : Type} [DecidableEq κ]
    (l : List (κ × α)) (k q : κ) (v : α) (h : q ≠ k) :
    assocLookup (assocSet l k v) q = assocLookup l q := by
  simp only [assocSet, assocLookup]
  rw [if_neg (fun hkq => h hkq.symm)]
  exact assocLookup_filter_ne l k q h

theorem assocLookup_mem {κ α : Type} [DecidableEq κ]
    {l : List (κ × α)} {q : κ} {v : α} (h : assocLookup l q = some v) :
    (q, v) ∈ l := by
  induction l with
  | nil => simp [assocLookup] at h
  | cons a l ih =>
    simp only [assocLookup] at h
    split at h
    · rename_i hk
      cases h
      rw [← hk]
      exact List.mem_cons_self _ _
    · exact List.mem_cons_of_mem _ (ih h)

theorem save_object_snd (w : World) (data : List Byte) :
    (save_object w data).2 = hash_data data := by
  simp only [save_object]
  split
  · rfl
  · split
    · rfl
    · split <;> rfl

theorem save_object_preserves (w : World) (data : List Byte)
    {p : FsPath} {v : List Byte} (h : assocLookup w.files p = some v) :
    assocLookup ((save_object w data).1).files p = some v := by
  simp only [save_object]
  split
  · exact h
  · split
    · exact h
    · split
      · rename_i hne _
        have hnone : assocLookup w.files (objectPathOf (hash_data data)) = none := by
          cases hl : assocLookup w.files (objectPathOf (hash_data data)) with
          | none => rfl
          | some d => rw [hl] at hne; simp at hne
        have hp : p ≠ objectPathOf (hash_data data) := fun he => by
          rw [he, hnone] at h; cases h
        simpa [assocLookup_assocSet_ne _ _ _ _ hp] using h
      · exact h

theorem save_object_other_path (w : World) (data : List Byte) {p : FsPath}
    (h : ∀ pre suf, p ≠ [".orb", "objects", pre, suf]) :
    assocLookup ((save_object w data).1).files p = assocLookup w.files p := by
  simp only [save_object]
  split
  · rfl
  · split
    · rfl
    · split
      · exact assocLookup_assocSet_ne _ _ _ _ (h _ _)
      · rfl

theorem chunk_and_save_data_preserves (w : World) (content : List Byte)
    {p : FsPath} {v : List Byte} (h : assocLookup w.files p = some v) :
    assocLookup ((chunk_and_save_data w content).1).files p = some v := by
  unfold chunk_and_save_data
  exact save_object_preserves _ _ (save_object_preserves _ _ h)

theorem chunk_and_save_data_other_path (w : World) (content : List Byte)
    {p : FsPath} (h : ∀ pre suf, p ≠ [".orb", "objects", pre, suf]) :
    assocLookup ((chunk_and_save_data w content).1).files p =
      assocLookup w.files p := by
  unfold chunk_and_save_data
  rw [save_object_other_path _ _ h, save_object_other_path _ _ h]

theorem splitAt2_hash (data : List Byte) :
    splitAt2 (hash_data data) =
      some (String.mk ((hash_data data).data.take 2),
            String.mk ((hash_data data).data.drop 2)) := by
  unfold splitAt2
  rw [if_pos]
  rw [hash_data_length]
  decide

/-! ### Claim theorems -/

/-- C8: URL parsing maps `orbits://h:443/r` to a TLS connection with port
443 and repository `r`, and `h:8080` to a plain TCP connection with port
8080 (and no repository). -/
theorem c8_url_parse_examples :
    OrbitUrl.parse "orbits://h:443/r" =
      some ⟨"h", 443, true, "h", some "r"⟩ ∧
    OrbitUrl.parse "h:8080" = some ⟨"h", 8080, false, "h", none⟩ := by
  exact ⟨by decide, by decide⟩

/-- C2: the claim says the VNP message type includes `Authenticate(token)`
and `AuthResult{success, message}`; the `VnpCommand` enum declared in
`vnp.rs` has no such variants — no constructor carries either tag (the
callers in `main.rs` nevertheless construct both, so the crate as given
cannot compile; the spec's message set is clearly the intent). -/
theorem c2_no_auth_variants :
    ∀ c : VnpCommand, vnpTag c ≠ "Authenticate" ∧ vnpTag c ≠ "AuthResult" := by
  intro c
  cases c <;> exact ⟨by simp [vnpTag], by simp [vnpTag]⟩

/-- C1: the claim says a second snapshot's commit has the first snapshot's
commit as its sole parent; but `repo::get_head_commit_id` is a stub that
always returns `Ok("")`, so every commit built by `repo::save_snapshot`
(which passes that result to `snapshot_commit`) has an empty parent list —
never `[C1.oid]`. -/
theorem c1_snapshot_parents_always_empty :
    get_head_commit_id = Except.ok "" ∧
    ∀ (root : ObjectId) (now : Int) (msg : String),
      (snapshot_commit root
        (match get_head_commit_id with
          | .ok pid => pid
          | .error _ => "") now msg).parents = [] := by
  refine ⟨rfl, ?_⟩
  intro root now msg
  simp [get_head_commit_id, snapshot_commit]

/-- C10: each object-path helper panics (via `split_at(2)`) exactly on ids
shorter than two characters; on ids of length at least two it returns a
`Result` and does not panic. -/
theorem c10_short_id_panics :
    ∀ (w : World) (id : ObjectId) (data : List Byte),
      (load_object_from_vos w id = none ↔ id.length < 2) ∧
      (store_object_with_id w id data = none ↔ id.length < 2) ∧
      (object_exists_locally w id = none ↔ id.length < 2) := by
  intro w id data
  by_cases h : 2 ≤ id.length
  · have h2 : ¬id.length < 2 := Nat.not_lt.mpr h
    have hsplit : splitAt2 id =
        some (String.mk (id.data.take 2), String.mk (id.data.drop 2)) := by
      unfold splitAt2
      rw [if_pos h]
    refine ⟨?_, ?_, ?_⟩
    · unfold load_object_from_vos
      rw [hsplit]
      simp [h2]
    · unfold store_object_with_id
      rw [hsplit]
      dsimp only
      constructor
      · intro hcontra
        split at hcontra
        · exact Option.noConfusion hcontra
        · split at hcontra
          · exact Option.noConfusion hcontra
          · exact Option.noConfusion hcontra
      · intro hlt
        exact absurd hlt h2
    · unfold object_exists_locally
      rw [hsplit]
      simp [h2]
  · have h2 : id.length < 2 := Nat.lt_of_not_le h
    have hsplit : splitAt2 id = none := by
      unfold splitAt2
      rw [if_neg h]
    refine ⟨?_, ?_, ?_⟩
    · unfold load_object_from_vos
      rw [hsplit]
      simp [h2]
    · unfold store_object_with_id
      rw [hsplit]
      simp [h2]
    · unfold object_exists_locally
      rw [hsplit]
      simp [h2]

/-- C3: after `save_object` stores bytes `b` (directory creation and the
write succeeding, and the store not already corrupted at that path),
reading via `history::load_object_data` at the digest OID returns exactly
`b`; the store path is `objects/<first 2 hex chars>/<remaining 62 hex
chars>` under `.orb`. -/
theorem c3_put_get_roundtrip :
    ∀ (w : World) (b : List Byte),
      w.mkdirOk (objectDirOf (String.mk ((hash_data b).data.take 2))) = true →
      w.writeOk (objectPathOf (hash_data b)) = true →
      (assocLookup w.files (objectPathOf (hash_data b)) = none ∨
        assocLookup w.files (objectPathOf (hash_data b)) = some b) →
      load_object_data (save_object w b).1 (hash_data b) =
        some (.ok b) ∧
      objectPathOf (hash_data b) =
        [".orb", "objects", String.mk ((hash_data b).data.take 2),
          String.mk ((hash_data b).data.drop 2)] ∧
      (String.mk ((hash_data b).data.drop 2)).length = 62 := by
  intro w b hmkdir hwrite hclean
  have hlook : assocLookup ((save_object w b).1).files
      (objectPathOf (hash_data b)) = some b := by
    simp only [save_object]
    rw [hmkdir]
    simp only [Bool.true_eq_false, if_false]
    cases hclean with
    | inl hnone =>
      rw [hnone]
      simp only [Option.isSome_none, Bool.false_eq_true, if_false]
      rw [hwrite]
      simp only [if_true]
      exact assocLookup_assocSet_self _ _ _
    | inr hsome =>
      rw [hsome]
      simpa using hsome
  refine ⟨?_, rfl, ?_⟩
  · unfold load_object_data
    rw [splitAt2_hash]
    dsimp only
    have hlook2 : assocLookup ((save_object w b).1).files
        (objectFileOf (String.mk ((hash_data b).data.take 2))
          (String.mk ((hash_data b).data.drop 2))) = some b := hlook
    rw [hlook2]
  · show (List.drop 2 (hash_data b).data).length = 62
    rw [List.length_drop]
    have : (hash_data b).data.length = 64 := hash_data_length b
    rw [this]

/-- Witness for C3 on the empty store with all-succeeding filesystem
calls. -/
theorem c3_put_get_roundtrip_witness :
    load_object_data
      (save_object ⟨[], fun _ => true, fun _ => true, fun _ => true⟩ []).1
      (hash_data []) = some (.ok []) :=
  (c3_put_get_roundtrip ⟨[], fun _ => true, fun _ => true, fun _ => true⟩ []
    rfl rfl (Or.inl rfl)).1

/-- C9: `save_object` returns the digest OID of its input under every
fault pattern (directory-creation and write failures are only warnings);
consequently, on a world where every write fails except the one to the ref
file, `save_snapshot` still reports success and points the tip at the new
commit id while neither the commit, nor the tree, nor the index were ever
persisted (the resulting filesystem holds only the ref file). -/
theorem c9_save_object_infallible_oid :
    (∀ (w : World) (data : List Byte),
      (save_object w data).2 = hash_data data) ∧
    (∃ commit_id : ObjectId,
      save_snapshot
        ⟨[], fun _ => true, fun _ => true, fun p => p.getD 1 "" == "refs"⟩
        ⟨1, []⟩ (.ok []) "m" 0 =
      (⟨[(refPath, strBytes commit_id)],
        fun _ => true, fun _ => true, fun p => p.getD 1 "" == "refs"⟩,
       .ok ())) := by
  refine ⟨fun w data => save_object_snd w data,
    ⟨hashCommitObj (snapshot_commit (hashDirectoryObj ⟨[]⟩) "" 0 "m"), ?_⟩⟩
  simp [save_snapshot, get_head_commit_id, traverse_and_save_tree,
    traverseEntries, save_object, update_head, assocLookup, assocSet,
    refPath, indexPath, objectPathOf, objectFileOf, objectDirOf,
    snapshot_commit, hashCommitObj, hashDirectoryObj]

theorem recvObjectDataLoop_stuck (size : Nat) (c : VnpCommand)
    (hOD : ∀ d, c ≠ .ObjectData d) (hErr : ∀ m, c ≠ .Error m) :
    ∀ (chunks : List (List Byte)) (rest : List VnpCommand) (acc : List Byte),
      acc.length + (chunks.map List.length).sum < size →
      recvObjectDataLoop size (chunks.map VnpCommand.ObjectData ++ c :: rest)
        acc = .error .invalidData := by
  intro chunks
  induction chunks with
  | nil =>
    intro rest acc h
    have hlt : acc.length < size := by simpa using h
    unfold recvObjectDataLoop
    rw [if_pos hlt]
    cases c with
    | ObjectData d => exact absurd rfl (hOD d)
    | Error m => exact absurd rfl (hErr m)
    | _ => rfl
  | cons chunk chs ih =>
    intro rest acc h
    have hsum : acc.length + (chunk.length + (chs.map List.length).sum) < size := by
      simpa using h
    have hlt : acc.length < size :=
      Nat.lt_of_le_of_lt (Nat.le_add_right _ _) hsum
    show recvObjectDataLoop size
      (.ObjectData chunk :: (chs.map VnpCommand.ObjectData ++ c :: rest)) acc =
      .error .invalidData
    unfold recvObjectDataLoop
    rw [if_pos hlt]
    exact ih rest (acc ++ chunk) (by simpa [Nat.add_assoc] using hsum)

/-- C6: when the data for one announced object is being received and a
frame other than `ObjectData` (and other than `Error`) arrives before the
accumulated payload reaches the announced size, the download step fails
with the `InvalidData` protocol error and the world — the object store and
the tip pointer — is completely unchanged (nothing is stored). -/
theorem c6_framing_violation :
    ∀ (w : World) (id object_type : String) (size : Nat)
      (chunks : List (List Byte)) (c : VnpCommand) (rest : List VnpCommand),
      (chunks.map List.length).sum < size →
      (∀ d, c ≠ .ObjectData d) →
      (∀ m, c ≠ .Error m) →
      fetch_one_object w
        (.ObjectHeader id object_type size ::
          (chunks.map VnpCommand.ObjectData ++ c :: rest)) =
        some (w, .error .invalidData) := by
  intro w id object_type size chunks c rest hsum hOD hErr
  unfold fetch_one_object recv_command
  dsimp only
  unfold recv_object_data
  rw [recvObjectDataLoop_stuck size c hOD hErr chunks rest [] (by simpa using hsum)]

/-- Witness for C6: a header announcing 3 bytes, one 1-byte `ObjectData`
frame, then a `Ready` frame. -/
theorem c6_framing_violation_witness :
    fetch_one_object ⟨[], fun _ => true, fun _ => true, fun _ => true⟩
      [.ObjectHeader "ab" "chunk" 3, .ObjectData [1], .Ready] =
      some (⟨[], fun _ => true, fun _ => true, fun _ => true⟩,
        .error .invalidData) :=
  c6_framing_violation _ "ab" "chunk" 3 [[1]] .Ready [] (by decide)
    (fun d h => VnpCommand.noConfusion h) (fun m h => VnpCommand.noConfusion h)

/-! ### Lemmas about the status-engine phases -/

theorem assocLookup_ne_none_of_mem {κ α : Type} [DecidableEq κ]
    {l : List (κ × α)} {q : κ} {e : α} (h : (q, e) ∈ l) :
    assocLookup l q ≠ none := by
  induction l with
  | nil => simp at h
  | cons a l ih =>
    obtain ⟨a1, a2⟩ := a
    simp only [assocLookup]
    by_cases hq : a1 = q
    · simp [hq]
    · rw [if_neg hq]
      rcases List.mem_cons.mp h with heq | hmem
      · exact absurd (congrArg Prod.fst heq).symm hq
      · exact ih hmem

theorem has_file_changed_isOk (idx : VosIndex) (p : String) (disk : Disk) :
    ∃ b, has_file_changed idx p disk = .ok b := by
  unfold has_file_changed
  rcases assocLookup idx.entries p with _ | e
  · exact ⟨true, rfl⟩
  · rcases assocLookup disk p with _ | f
    · exact ⟨true, rfl⟩
    · exact ⟨_, rfl⟩

theorem scanTracked_changes_char (idx : VosIndex) (disk : Disk) :
    ∀ (l : List (String × IndexEntry)) (q : String) (s : FileStatus),
      (q, s) ∈ (scanTracked idx disk l).1 →
      s = .Deleted ∧ assocLookup disk q = none ∧ ∃ e, (q, e) ∈ l := by
  intro l
  induction l with
  | nil => intro q s h; simp [scanTracked] at h
  | cons a l ih =>
    obtain ⟨path, entry⟩ := a
    intro q s h
    simp only [scanTracked] at h
    by_cases hd : assocLookup disk path = none
    · rw [if_pos hd] at h
      rcases List.mem_cons.mp h with heq | hmem
      · obtain ⟨h1, h2⟩ := Prod.mk.injEq .. ▸ heq
        subst h1; subst h2
        exact ⟨rfl, hd, entry, List.mem_cons_self _ _⟩
      · obtain ⟨hs, hq, e, he⟩ := ih q s hmem
        exact ⟨hs, hq, e, List.mem_cons_of_mem _ he⟩
    · rw [if_neg hd] at h
      have h' : (q, s) ∈ (scanTracked idx disk l).1 := by
        cases hf : has_file_changed idx path disk with
        | ok b =>
          rw [hf] at h
          cases b <;> simpa using h
        | error m =>
          rw [hf] at h
          simpa using h
      obtain ⟨hs, hq, e, he⟩ := ih q s h'
      exact ⟨hs, hq, e, List.mem_cons_of_mem _ he⟩

theorem scanTracked_deleted_mem (idx : VosIndex) (disk : Disk) :
    ∀ (l : List (String × IndexEntry)) (p : String) (e : IndexEntry),
      (p, e) ∈ l → assocLookup disk p = none →
      (p, FileStatus.Deleted) ∈ (scanTracked idx disk l).1 := by
  intro l
  induction l with
  | nil => intro p e h; simp at h
  | cons a l ih =>
    obtain ⟨path, entry⟩ := a
    intro p e hmem hd
    simp only [scanTracked]
    rcases List.mem_cons.mp hmem with heq | htail
    · obtain ⟨h1, _⟩ := Prod.mk.injEq .. ▸ heq
      subst h1
      rw [if_pos hd]
      exact List.mem_cons_self _ _
    · have hrec := ih p e htail hd
      by_cases hdp : assocLookup disk path = none
      · rw [if_pos hdp]
        exact List.mem_cons_of_mem _ hrec
      · rw [if_neg hdp]
        cases hf : has_file_changed idx path disk with
        | ok b => cases b <;> simpa using hrec
        | error m => simpa using hrec

theorem scanTracked_fc_mem (idx : VosIndex) (disk : Disk) :
    ∀ (l : List (String × IndexEntry)) (p : String) (e : IndexEntry),
      (p, e) ∈ l → assocLookup disk p ≠ none →
      has_file_changed idx p disk = .ok true →
      p ∈ (scanTracked idx disk l).2 := by
  intro l
  induction l with
  | nil => intro p e h; simp at h
  | cons a l ih =>
    obtain ⟨path, entry⟩ := a
    intro p e hmem hd hf
    simp only [scanTracked]
    rcases List.mem_cons.mp hmem with heq | htail
    · obtain ⟨h1, _⟩ := Prod.mk.injEq .. ▸ heq
      subst h1
      rw [if_neg hd, hf]
      exact List.mem_cons_self _ _
    · have hrec := ih p e htail hd hf
      by_cases hdp : assocLookup disk path = none
      · rw [if_pos hdp]
        exact hrec
      · rw [if_neg hdp]
        cases hfp : has_file_changed idx path disk with
        | ok b =>
          cases b
          · exact hrec
          · exact List.mem_cons_of_mem _ hrec
        | error m => exact List.mem_cons_of_mem _ hrec

theorem scanTracked_fc_char (idx : VosIndex) (disk : Disk) :
    ∀ (l : List (String × IndexEntry)) (q : String),
      q ∈ (scanTracked idx disk l).2 →
      (∃ e, (q, e) ∈ l) ∧ assocLookup disk q ≠ none ∧
        has_file_changed idx q disk = .ok true := by
  intro l
  induction l with
  | nil => intro q h; simp [scanTracked] at h
  | cons a l ih =>
    obtain ⟨path, entry⟩ := a
    intro q h
    simp only [scanTracked] at h
    by_cases hd : assocLookup disk path = none
    · rw [if_pos hd] at h
      obtain ⟨⟨e, he⟩, h2, h3⟩ := ih q h
      exact ⟨⟨e, List.mem_cons_of_mem _ he⟩, h2, h3⟩
    · rw [if_neg hd] at h
      cases hf : has_file_changed idx path disk with
      | ok b =>
        rw [hf] at h
        cases b
        · obtain ⟨⟨e, he⟩, h2, h3⟩ := ih q (by simpa using h)
          exact ⟨⟨e, List.mem_cons_of_mem _ he⟩, h2, h3⟩
        · rcases List.mem_cons.mp (by simpa using h) with heq | htail
          · subst heq
            exact ⟨⟨entry, List.mem_cons_self _ _⟩, hd, hf⟩
          · obtain ⟨⟨e, he⟩, h2, h3⟩ := ih q htail
            exact ⟨⟨e, List.mem_cons_of_mem _ he⟩, h2, h3⟩
      | error m =>
        obtain ⟨b, hb⟩ := has_file_changed_isOk idx path disk
        rw [hb] at hf
        exact Except.noConfusion hf

theorem chunk_and_save_data_oid (w : World) (content : List Byte) :
    (chunk_and_save_data w content).2.1 =
      hashFileObj ⟨hash_data content, content.length⟩ := by
  unfold chunk_and_save_data
  rcases h : save_object w content with ⟨w1, cid⟩
  have hc : cid = hash_data content := by
    rw [← save_object_snd w content, h]
  subst hc
  rfl

theorem scanUntracked_mem (idx : VosIndex) :
    ∀ (disk : Disk) (p : String) (f : DiskFile),
      (p, f) ∈ disk → assocLookup idx.entries p = none →
      (p, FileStatus.Untracked) ∈ scanUntracked idx disk := by
  intro disk
  induction disk with
  | nil => intro p f h; simp at h
  | cons a l ih =>
    obtain ⟨path, df⟩ := a
    intro p f hmem hl
    simp only [scanUntracked]
    rcases List.mem_cons.mp hmem with heq | htail
    · obtain ⟨h1, _⟩ := Prod.mk.injEq .. ▸ heq
      subst h1
      rw [if_pos hl]
      exact List.mem_cons_self _ _
    · by_cases hlp : assocLookup idx.entries path = none
      · rw [if_pos hlp]
        exact List.mem_cons_of_mem _ (ih p f htail hl)
      · rw [if_neg hlp]
        exact ih p f htail hl

theorem fullCheckPass_total (idx : VosIndex) (disk : Disk) :
    ∀ (fc : List String) (w : World),
      (∀ q ∈ fc, assocLookup idx.entries q ≠ none) →
      ∃ w' cs, fullCheckPass idx disk w fc = some (w', .ok cs) := by
  intro fc
  induction fc with
  | nil => intro w _; exact ⟨w, [], rfl⟩
  | cons path rest ih =>
    intro w hq
    simp only [fullCheckPass]
    cases hd : assocLookup disk path with
    | none =>
      simp only [Option.isSome_none, Bool.false_eq_true, if_false]
      exact ih w (fun q hm => hq q (List.mem_cons_of_mem _ hm))
    | some f =>
      simp only [Option.isSome_some, if_true]
      have hcf : chunk_and_save_file w disk path =
          .ok (chunk_and_save_data w f.content) := by
        unfold chunk_and_save_file
        rw [hd]
      rw [hcf]
      rcases hcd : chunk_and_save_data w f.content with ⟨w1, fid, sz⟩
      cases hl : assocLookup idx.entries path with
      | none => exact absurd hl (hq path (List.mem_cons_self _ _))
      | some e =>
        obtain ⟨w2, cs, hrec⟩ := ih w1 (fun q hm => hq q (List.mem_cons_of_mem _ hm))
        simp only [hrec]
        exact ⟨w2, _, rfl⟩

theorem fullCheckPass_modified_mem (idx : VosIndex) (disk : Disk)
    (p : String) (f : DiskFile) (e : IndexEntry)
    (hdp : assocLookup disk p = some f)
    (hip : assocLookup idx.entries p = some e)
    (hne : hashFileObj ⟨hash_data f.content, f.content.length⟩ ≠ e.file_id) :
    ∀ (fc : List String) (w w' : World) (cs : List (String × FileStatus)),
      fullCheckPass idx disk w fc = some (w', .ok cs) →
      p ∈ fc → (p, FileStatus.Modified) ∈ cs := by
  intro fc
  induction fc with
  | nil => intro w w' cs _ hm; simp at hm
  | cons path rest ih =>
    intro w w' cs heq hm
    simp only [fullCheckPass] at heq
    rcases List.mem_cons.mp hm with hp | htail
    · subst hp
      have hcf : chunk_and_save_file w disk p =
          .ok (chunk_and_save_data w f.content) := by
        unfold chunk_and_save_file
        rw [hdp]
      rcases hcd : chunk_and_save_data w f.content with ⟨w1, fid, sz⟩
      have hfid : fid = hashFileObj ⟨hash_data f.content, f.content.length⟩ := by
        rw [← chunk_and_save_data_oid w f.content, hcd]
      cases hrec : fullCheckPass idx disk w1 rest with
      | none => simp [hdp, hcf, hcd, hip, hrec] at heq
      | some r =>
        obtain ⟨w2, r2⟩ := r
        cases r2 with
        | error er => simp [hdp, hcf, hcd, hip, hrec] at heq
        | ok cs2 =>
          simp only [hdp, Option.isSome_some, if_true, hcf, hcd, hip, hrec,
            Option.some.injEq, Prod.mk.injEq, Except.ok.injEq] at heq
          obtain ⟨_, hcs⟩ := heq
          rw [← hcs, if_pos (hfid ▸ hne)]
          exact List.mem_cons_self _ _
    · by_cases hdh : (assocLookup disk path).isSome
      · cases hdo : assocLookup disk path with
        | none => rw [hdo] at hdh; simp at hdh
        | some fh =>
          have hcfh : chunk_and_save_file w disk path =
              .ok (chunk_and_save_data w fh.content) := by
            unfold chunk_and_save_file
            rw [hdo]
          rcases hcd : chunk_and_save_data w fh.content with ⟨w1, fid, sz⟩
          cases hlh : assocLookup idx.entries path with
          | none => simp [hdo, hcfh, hcd, hlh] at heq
          | some eh =>
            cases hrec : fullCheckPass idx disk w1 rest with
            | none => simp [hdo, hcfh, hcd, hlh, hrec] at heq
            | some r =>
              obtain ⟨w2, r2⟩ := r
              cases r2 with
              | error er => simp [hdo, hcfh, hcd, hlh, hrec] at heq
              | ok cs2 =>
                simp only [hdo, Option.isSome_some, if_true, hcfh, hcd, hlh,
                  hrec, Option.some.injEq, Prod.mk.injEq,
                  Except.ok.injEq] at heq
                obtain ⟨_, hcs⟩ := heq
                have hmem2 := ih w1 w2 cs2 hrec htail
                rw [← hcs]
                by_cases hff : fid ≠ eh.file_id
                · rw [if_pos hff]
                  exact List.mem_cons_of_mem _ hmem2
                · rw [if_neg hff]
                  exact hmem2
      · rw [if_neg hdh] at heq
        exact ih w w' cs heq htail

theorem fullCheckPass_changes_char (idx : VosIndex) (disk : Disk) :
    ∀ (fc : List String) (w w' : World) (cs : List (String × FileStatus))
      (q : String) (s : FileStatus),
      fullCheckPass idx disk w fc = some (w', .ok cs) →
      (q, s) ∈ cs →
      s = .Modified ∧ q ∈ fc ∧
        ∃ e f, assocLookup idx.entries q = some e ∧
          assocLookup disk q = some f ∧
          hashFileObj ⟨hash_data f.content, f.content.length⟩ ≠ e.file_id := by
  intro fc
  induction fc with
  | nil =>
    intro w w' cs q s heq hm
    simp only [fullCheckPass, Option.some.injEq, Prod.mk.injEq,
      Except.ok.injEq] at heq
    obtain ⟨_, hcs⟩ := heq
    rw [← hcs] at hm
    simp at hm
  | cons path rest ih =>
    intro w w' cs q s heq hm
    simp only [fullCheckPass] at heq
    by_cases hdh : (assocLookup disk path).isSome
    · cases hdo : assocLookup disk path with
      | none => rw [hdo] at hdh; simp at hdh
      | some fh =>
        have hcfh : chunk_and_save_file w disk path =
            .ok (chunk_and_save_data w fh.content) := by
          unfold chunk_and_save_file
          rw [hdo]
        rcases hcd : chunk_and_save_data w fh.content with ⟨w1, fid, sz⟩
        have hfid : fid = hashFileObj ⟨hash_data fh.content, fh.content.length⟩ := by
          rw [← chunk_and_save_data_oid w fh.content, hcd]
        cases hlh : assocLookup idx.entries path with
        | none => simp [hdo, hcfh, hcd, hlh] at heq
        | some eh =>
          cases hrec : fullCheckPass idx disk w1 rest with
          | none => simp [hdo, hcfh, hcd, hlh, hrec] at heq
          | some r =>
            obtain ⟨w2, r2⟩ := r
            cases r2 with
            | error er => simp [hdo, hcfh, hcd, hlh, hrec] at heq
            | ok cs2 =>
              simp only [hdo, Option.isSome_some, if_true, hcfh, hcd, hlh,
                hrec, Option.some.injEq, Prod.mk.injEq,
                Except.ok.injEq] at heq
              obtain ⟨_, hcs⟩ := heq
              rw [← hcs] at hm
              by_cases hff : fid ≠ eh.file_id
              · rw [if_pos hff] at hm
                rcases List.mem_cons.mp hm with hhd | htl
                · obtain ⟨h1, h2⟩ := Prod.mk.injEq .. ▸ hhd
                  subst h1; subst h2
                  exact ⟨rfl, List.mem_cons_self _ _,
                    eh, fh, hlh, hdo, hfid ▸ hff⟩
                · obtain ⟨hs, hfc, hrest⟩ := ih w1 w2 cs2 q s hrec htl
                  exact ⟨hs, List.mem_cons_of_mem _ hfc, hrest⟩
              · rw [if_neg hff] at hm
                obtain ⟨hs, hfc, hrest⟩ := ih w1 w2 cs2 q s hrec hm
                exact ⟨hs, List.mem_cons_of_mem _ hfc, hrest⟩
    · rw [if_neg hdh] at heq
      obtain ⟨hs, hfc, hrest⟩ := ih w w' cs q s heq hm
      exact ⟨hs, List.mem_cons_of_mem _ hfc, hrest⟩

theorem fullCheckPass_preserves (idx : VosIndex) (disk : Disk) :
    ∀ (fc : List String) (w w' : World)
      (r : Except IoErr (List (String × FileStatus))),
      fullCheckPass idx disk w fc = some (w', r) →
      ∀ (p : FsPath) (v : List Byte),
        assocLookup w.files p = some v → assocLookup w'.files p = some v := by
  intro fc
  induction fc with
  | nil =>
    intro w w' r heq p v h
    simp only [fullCheckPass, Option.some.injEq, Prod.mk.injEq] at heq
    obtain ⟨hw, _⟩ := heq
    rw [← hw]
    exact h
  | cons path rest ih =>
    intro w w' r heq p v h
    simp only [fullCheckPass] at heq
    by_cases hdh : (assocLookup disk path).isSome
    · cases hdo : assocLookup disk path with
      | none => rw [hdo] at hdh; simp at hdh
      | some fh =>
        have hcfh : chunk_and_save_file w disk path =
            .ok (chunk_and_save_data w fh.content) := by
          unfold chunk_and_save_file
          rw [hdo]
        rcases hcd : chunk_and_save_data w fh.content with ⟨w1, fid, sz⟩
        have hw1 : assocLookup w1.files p = some v := by
          have hpr := chunk_and_save_data_preserves w fh.content h
          rw [hcd] at hpr
          exact hpr
        cases hlh : assocLookup idx.entries path with
        | none => simp [hdo, hcfh, hcd, hlh] at heq
        | some eh =>
          cases hrec : fullCheckPass idx disk w1 rest with
          | none => simp [hdo, hcfh, hcd, hlh, hrec] at heq
          | some r2 =>
            obtain ⟨w2, r3⟩ := r2
            have hw2 := ih w1 w2 r3 hrec p v hw1
            cases r3 with
            | error er =>
              simp only [hdo, Option.isSome_some, if_true, hcfh, hcd, hlh,
                hrec, Option.some.injEq, Prod.mk.injEq] at heq
              obtain ⟨hww, _⟩ := heq
              rw [← hww]
              exact hw2
            | ok cs2 =>
              simp only [hdo, Option.isSome_some, if_true, hcfh, hcd, hlh,
                hrec, Option.some.injEq, Prod.mk.injEq] at heq
              obtain ⟨hww, _⟩ := heq
              rw [← hww]
              exact hw2
    · rw [if_neg hdh] at heq
      exact ih w w' r heq p v h

theorem fullCheckPass_other_path (idx : VosIndex) (disk : Disk) :
    ∀ (fc : List String) (w w' : World)
      (r : Except IoErr (List (String × FileStatus))),
      fullCheckPass idx disk w fc = some (w', r) →
      ∀ (p : FsPath), (∀ pre suf, p ≠ [".orb", "objects", pre, suf]) →
        assocLookup w'.files p = assocLookup w.files p := by
  intro fc
  induction fc with
  | nil =>
    intro w w' r heq p _
    simp only [fullCheckPass, Option.some.injEq, Prod.mk.injEq] at heq
    obtain ⟨hw, _⟩ := heq
    rw [← hw]
  | cons path rest ih =>
    intro w w' r heq p hp
    simp only [fullCheckPass] at heq
    by_cases hdh : (assocLookup disk path).isSome
    · cases hdo : assocLookup disk path with
      | none => rw [hdo] at hdh; simp at hdh
      | some fh =>
        have hcfh : chunk_and_save_file w disk path =
            .ok (chunk_and_save_data w fh.content) := by
          unfold chunk_and_save_file
          rw [hdo]
        rcases hcd : chunk_and_save_data w fh.content with ⟨w1, fid, sz⟩
        have hw1 : assocLookup w1.files p = assocLookup w.files p := by
          have hpr := chunk_and_save_data_other_path w fh.content hp
          rw [hcd] at hpr
          exact hpr
        cases hlh : assocLookup idx.entries path with
        | none => simp [hdo, hcfh, hcd, hlh] at heq
        | some eh =>
          cases hrec : fullCheckPass idx disk w1 rest with
          | none => simp [hdo, hcfh, hcd, hlh, hrec] at heq
          | some r2 =>
            obtain ⟨w2, r3⟩ := r2
            have hw2 := ih w1 w2 r3 hrec p hp
            cases r3 with
            | error er =>
              simp only [hdo, Option.isSome_some, if_true, hcfh, hcd, hlh,
                hrec, Option.some.injEq, Prod.mk.injEq] at heq
              obtain ⟨hww, _⟩ := heq
              rw [← hww, hw2, hw1]
            | ok cs2 =>
              simp only [hdo, Option.isSome_some, if_true, hcfh, hcd, hlh,
                hrec, Option.some.injEq, Prod.mk.injEq] at heq
              obtain ⟨hww, _⟩ := heq
              rw [← hww, hw2, hw1]
    · rw [if_neg hdh] at heq
      exact ih w w' r heq p hp

theorem scanUntracked_char (idx : VosIndex) :
    ∀ (disk : Disk) (q : String) (s : FileStatus),
      (q, s) ∈ scanUntracked idx disk →
      s = .Untracked ∧ assocLookup idx.entries q = none := by
  intro disk
  induction disk with
  | nil => intro q s h; simp [scanUntracked] at h
  | cons a l ih =>
    obtain ⟨path, df⟩ := a
    intro q s h
    simp only [scanUntracked] at h
    by_cases hlp : assocLookup idx.entries path = none
    · rw [if_pos hlp] at h
      rcases List.mem_cons.mp h with heq | htail
      · obtain ⟨h1, h2⟩ := Prod.mk.injEq .. ▸ heq
        subst h1; subst h2
        exact ⟨rfl, hlp⟩
      · exact ih q s htail
    · rw [if_neg hlp] at h
      exact ih q s h

/-- C4 (amended): the per-path status classification of `check_status`,
with the proviso forced by the early return on an empty Index: a tracked
path missing on disk is `Deleted`; one with matching `(mtime,size)` is
reported as no change; on metadata drift the content OID (the `File`
object id recomputed by `chunk_and_save_file`) decides between no change
and `Modified`; and — provided the Index is non-empty — a file on disk
with no Index entry is `Untracked`. -/
theorem c4_status_classification :
    ∀ (idx : VosIndex) (disk : Disk) (w : World),
      ∃ w' cs, check_status idx disk w = some (w', .ok cs) ∧
        ∀ p : String,
          (∀ e, assocLookup idx.entries p = some e →
            (assocLookup disk p = none → (p, FileStatus.Deleted) ∈ cs) ∧
            (∀ f, assocLookup disk p = some f →
              ((e.mtime = f.mtime ∧ e.size = f.content.length) →
                ∀ s, (p, s) ∉ cs) ∧
              (¬(e.mtime = f.mtime ∧ e.size = f.content.length) →
                (hashFileObj ⟨hash_data f.content, f.content.length⟩ =
                    e.file_id → ∀ s, (p, s) ∉ cs) ∧
                (hashFileObj ⟨hash_data f.content, f.content.length⟩ ≠
                    e.file_id → (p, FileStatus.Modified) ∈ cs)))) ∧
          (assocLookup idx.entries p = none → idx.entries ≠ [] →
            ∀ f, assocLookup disk p = some f →
              (p, FileStatus.Untracked) ∈ cs) := by
  intro idx disk w
  by_cases hemp : idx.entries = []
  · refine ⟨w, [], by simp [check_status, hemp], ?_⟩
    intro p
    refine ⟨?_, ?_⟩
    · intro e he
      rw [hemp] at he
      simp [assocLookup] at he
    · intro _ hne
      exact absurd hemp hne
  · rcases hscan : scanTracked idx disk idx.entries with ⟨cs2, fc⟩
    have hfcpre : ∀ q ∈ fc, assocLookup idx.entries q ≠ none := by
      intro q hq
      obtain ⟨⟨e, he⟩, _, _⟩ :=
        scanTracked_fc_char idx disk idx.entries q (by rw [hscan]; exact hq)
      exact assocLookup_ne_none_of_mem he
    obtain ⟨w', cs3, hfull⟩ := fullCheckPass_total idx disk fc w hfcpre
    have hcheck : check_status idx disk w =
        some (w', .ok (cs2 ++ cs3 ++ scanUntracked idx disk)) := by
      unfold check_status
      rw [if_neg hemp, hscan]
      simp only [hfull]
    refine ⟨w', cs2 ++ cs3 ++ scanUntracked idx disk, hcheck, ?_⟩
    intro p
    refine ⟨?_, ?_⟩
    · intro e he
      have hmemIdx : (p, e) ∈ idx.entries := assocLookup_mem he
      refine ⟨?_, ?_⟩
      · intro hdn
        have hd : (p, FileStatus.Deleted) ∈ cs2 := by
          have := scanTracked_deleted_mem idx disk idx.entries p e hmemIdx hdn
          rw [hscan] at this
          exact this
        simp [List.mem_append, hd]
      · intro f hdf
        refine ⟨?_, ?_⟩
        · intro hmeta s hmem
          rcases List.mem_append.mp hmem with hmem2 | hmem4
          · rcases List.mem_append.mp hmem2 with hc2 | hc3
            · obtain ⟨_, hnone, _⟩ := scanTracked_changes_char idx disk
                idx.entries p s (by rw [hscan]; exact hc2)
              rw [hdf] at hnone
              exact Option.noConfusion hnone
            · obtain ⟨_, hfc, _⟩ :=
                fullCheckPass_changes_char idx disk fc w w' cs3 p s hfull hc3
              obtain ⟨_, _, htrue⟩ :=
                scanTracked_fc_char idx disk idx.entries p (by rw [hscan]; exact hfc)
              unfold has_file_changed at htrue
              rw [he, hdf] at htrue
              have : (e.mtime != f.mtime || e.size != f.content.length) = true := by
                simpa using htrue
              simp [bne, hmeta.1, hmeta.2] at this
          · obtain ⟨_, hnone⟩ := scanUntracked_char idx disk p s hmem4
            rw [he] at hnone
            exact Option.noConfusion hnone
        · intro hmetane
          refine ⟨?_, ?_⟩
          · intro hoid s hmem
            rcases List.mem_append.mp hmem with hmem2 | hmem4
            · rcases List.mem_append.mp hmem2 with hc2 | hc3
              · obtain ⟨_, hnone, _⟩ := scanTracked_changes_char idx disk
                  idx.entries p s (by rw [hscan]; exact hc2)
                rw [hdf] at hnone
                exact Option.noConfusion hnone
              · obtain ⟨_, _, e2, f2, he2, hdf2, hne2⟩ :=
                  fullCheckPass_changes_char idx disk fc w w' cs3 p s hfull hc3
                rw [he] at he2
                rw [hdf] at hdf2
                obtain rfl : e = e2 := Option.some.injEq .. ▸ he2
                obtain rfl : f = f2 := Option.some.injEq .. ▸ hdf2
                exact hne2 hoid
            · obtain ⟨_, hnone⟩ := scanUntracked_char idx disk p s hmem4
              rw [he] at hnone
              exact Option.noConfusion hnone
          · intro hoidne
            have hfctrue : has_file_changed idx p disk = .ok true := by
              unfold has_file_changed
              rw [he, hdf]
              rcases not_and_or.mp hmetane with hm | hm <;> simp [bne, hm]
            have hfcmem : p ∈ fc := by
              have := scanTracked_fc_mem idx disk idx.entries p e hmemIdx
                (by rw [hdf]; exact fun hx => Option.noConfusion hx) hfctrue
              rw [hscan] at this
              exact this
            have hmod := fullCheckPass_modified_mem idx disk p f e hdf he
              hoidne fc w w' cs3 hfull hfcmem
            simp [List.mem_append, hmod]
    · intro hnone _ f hdf
      have hmemD : (p, f) ∈ disk := assocLookup_mem hdf
      have hu := scanUntracked_mem idx disk p f hmemD hnone
      simp [List.mem_append, hu]

/-- Counterexample for C4 as literally stated: with an empty Index,
`check_status` returns early and reports nothing, so the on-disk file
`c` with no Index entry is not classified `Untracked`. -/
theorem c4_counterexample_empty_index_untracked :
    check_status ⟨1, []⟩ [("c", ⟨5, [49]⟩)]
        ⟨[], fun _ => true, fun _ => true, fun _ => true⟩ =
      some (⟨[], fun _ => true, fun _ => true, fun _ => true⟩, .ok []) ∧
    ("c", FileStatus.Untracked) ∉ ([] : List (String × FileStatus)) :=
  ⟨rfl, by simp⟩

/-- Witness for C4 at a concrete instance: a tracked file missing on disk
is reported `Deleted`. -/
theorem c4_status_classification_witness :
    ∃ w' cs,
      check_status ⟨1, [("a", ⟨"a", 1, 1, "x"⟩)]⟩ []
          ⟨[], fun _ => true, fun _ => true, fun _ => true⟩ =
        some (w', .ok cs) ∧ ("a", FileStatus.Deleted) ∈ cs := by
  obtain ⟨w', cs, hcs, hprop⟩ := c4_status_classification
    ⟨1, [("a", ⟨"a", 1, 1, "x"⟩)]⟩ []
    ⟨[], fun _ => true, fun _ => true, fun _ => true⟩
  exact ⟨w', cs, hcs, ((hprop "a").1 ⟨"a", 1, 1, "x"⟩ rfl).1 rfl⟩

theorem save_object_fresh (w : World) (data : List Byte)
    (hm : w.mkdirOk (objectDirOf (String.mk ((hash_data data).data.take 2))) = true)
    (hw : w.writeOk (objectPathOf (hash_data data)) = true)
    (hn : assocLookup w.files (objectPathOf (hash_data data)) = none) :
    assocLookup ((save_object w data).1).files (objectPathOf (hash_data data)) =
      some data := by
  simp only [save_object]
  rw [hm]
  simp only [Bool.true_eq_false, if_false]
  rw [hn]
  simp only [Option.isSome_none, Bool.false_eq_true, if_false]
  rw [hw]
  simp only [if_true]
  exact assocLookup_assocSet_self _ _ _

theorem chunk_and_save_data_stores_chunk (w : World) (content : List Byte)
    (hm : w.mkdirOk (objectDirOf (String.mk ((hash_data content).data.take 2))) = true)
    (hw : w.writeOk (objectPathOf (hash_data content)) = true)
    (hn : assocLookup w.files (objectPathOf (hash_data content)) = none) :
    assocLookup ((chunk_and_save_data w content).1).files
      (objectPathOf (hash_data content)) = some content := by
  unfold chunk_and_save_data
  exact save_object_preserves _ _ (save_object_fresh w content hm hw hn)

theorem check_status_writes_chunk (w : World)
    (hm : w.mkdirOk (objectDirOf (String.mk ((hash_data [49]).data.take 2))) = true)
    (hw : w.writeOk (objectPathOf (hash_data [49])) = true)
    (hn : assocLookup w.files (objectPathOf (hash_data [49])) = none) :
    (check_status ⟨1, [("a", ⟨"a", 1, 1, "x"⟩)]⟩ [("a", ⟨2, [49]⟩)] w).map
      (fun r => assocLookup r.1.files (objectPathOf (hash_data [49]))) =
      some (some [49]) := by
  have h2 := chunk_and_save_data_stores_chunk w [49] hm hw hn
  rcases hcd : chunk_and_save_data w [49] with ⟨w1, fid, sz⟩
  rw [hcd] at h2
  have hcf : chunk_and_save_file w [("a", ⟨2, [49]⟩)] "a" =
      .ok (chunk_and_save_data w [49]) := by
    unfold chunk_and_save_file
    rfl
  have hfull : fullCheckPass ⟨1, [("a", ⟨"a", 1, 1, "x"⟩)]⟩ [("a", ⟨2, [49]⟩)]
      w ["a"] =
      some (w1, .ok (if fid ≠ "x" then [("a", FileStatus.Modified)] else [])) := by
    simp only [fullCheckPass, hcf, hcd]
    rfl
  have hcheck : check_status ⟨1, [("a", ⟨"a", 1, 1, "x"⟩)]⟩ [("a", ⟨2, [49]⟩)] w =
      some (w1, .ok (([] : List (String × FileStatus)) ++
        (if fid ≠ "x" then [("a", FileStatus.Modified)] else []) ++ [])) := by
    unfold check_status
    rw [if_neg (by decide)]
    have hscan : scanTracked ⟨1, [("a", ⟨"a", 1, 1, "x"⟩)]⟩ [("a", ⟨2, [49]⟩)]
        [("a", ⟨"a", 1, 1, "x"⟩)] = ([], ["a"]) := rfl
    rw [hscan]
    simp only [hfull]
    rfl
  rw [hcheck]
  dsimp only [Option.map]
  rw [h2]

/-- C5 (amended): `check_status` never deletes or overwrites an existing
entry anywhere in the repository area, and touches nothing outside
`.orb/objects` — in particular it does not rewrite the Index file or the
tip; but (see the counterexample) it does write new chunk and `File`
objects into the object store for tracked files whose metadata diverge,
because the full check recomputes the content OID through
`vos::chunk_and_save_file`. -/
theorem c5_status_store_effects :
    ∀ (idx : VosIndex) (disk : Disk) (w w' : World)
      (r : Except IoErr (List (String × FileStatus))),
      check_status idx disk w = some (w', r) →
      (∀ p v, assocLookup w.files p = some v →
        assocLookup w'.files p = some v) ∧
      (∀ p : FsPath, (∀ pre suf, p ≠ [".orb", "objects", pre, suf]) →
        assocLookup w'.files p = assocLookup w.files p) := by
  intro idx disk w w' r heq
  unfold check_status at heq
  by_cases hemp : idx.entries = []
  · rw [if_pos hemp] at heq
    obtain ⟨hw, _⟩ := Prod.mk.injEq .. ▸ (Option.some.injEq .. ▸ heq)
    rw [← hw]
    exact ⟨fun p v h => h, fun p _ => rfl⟩
  · rw [if_neg hemp] at heq
    rcases hscan : scanTracked idx disk idx.entries with ⟨cs2, fc⟩
    simp only [hscan] at heq
    cases hfp : fullCheckPass idx disk w fc with
    | none => rw [hfp] at heq; exact Option.noConfusion heq
    | some r2 =>
      obtain ⟨w2, r3⟩ := r2
      rw [hfp] at heq
      cases r3 with
      | error er =>
        simp only [Option.some.injEq, Prod.mk.injEq] at heq
        obtain ⟨hw, _⟩ := heq
        rw [← hw]
        exact ⟨fun p v h => fullCheckPass_preserves idx disk fc w w2 _ hfp p v h,
          fun p hp => fullCheckPass_other_path idx disk fc w w2 _ hfp p hp⟩
      | ok cs3 =>
        simp only [Option.some.injEq, Prod.mk.injEq] at heq
        obtain ⟨hw, _⟩ := heq
        rw [← hw]
        exact ⟨fun p v h => fullCheckPass_preserves idx disk fc w w2 _ hfp p v h,
          fun p hp => fullCheckPass_other_path idx disk fc w w2 _ hfp p hp⟩

/-- Counterexample for C5 as stated: starting from an empty object store,
running `check_status` on a tracked file `a` whose mtime has drifted
writes `a`'s content chunk into the object store (at the store path of its
digest), so status is not read-only on the store. -/
theorem c5_counterexample_status_writes_store :
    (check_status ⟨1, [("a", ⟨"a", 1, 1, "x"⟩)]⟩ [("a", ⟨2, [49]⟩)]
        ⟨[], fun _ => true, fun _ => true, fun _ => true⟩).map
      (fun r => assocLookup r.1.files (objectPathOf (hash_data [49]))) =
      some (some [49]) :=
  check_status_writes_chunk
    ⟨[], fun _ => true, fun _ => true, fun _ => true⟩ rfl rfl rfl

/-- Witness for C5: applying the frame theorem at a concrete run (a
tracked file deleted on disk, so no hashing happens) shows the tip file is
untouched. -/
theorem c5_status_store_effects_witness :
    assocLookup (⟨[(refPath, [102])], fun _ => true, fun _ => true,
      fun _ => true⟩ : World).files refPath = some [102] :=
  (c5_status_store_effects ⟨1, [("a", ⟨"a", 1, 1, "x"⟩)]⟩ []
    ⟨[(refPath, [102])], fun _ => true, fun _ => true, fun _ => true⟩
    ⟨[(refPath, [102])], fun _ => true, fun _ => true, fun _ => true⟩
    (.ok [("a", .Deleted)]) rfl).1 refPath [102] rfl

/-! ### World evolution through the snapshot pipeline -/

/-- The world transition of every store-writing operation in the snapshot
pipeline: existing entries survive, paths outside `.orb/objects` are
untouched, and the fault oracles are unchanged. -/
def StorePreserve (w w' : World) : Prop :=
  (∀ p v, assocLookup w.files p = some v → assocLookup w'.files p = some v) ∧
  (∀ p : FsPath, (∀ pre suf, p ≠ [".orb", "objects", pre, suf]) →
    assocLookup w'.files p = assocLookup w.files p) ∧
  w'.mkdirOk = w.mkdirOk ∧ w'.createOk = w.createOk ∧ w'.writeOk = w.writeOk

theorem storePreserve_refl (w : World) : StorePreserve w w :=
  ⟨fun _ _ h => h, fun _ _ => rfl, rfl, rfl, rfl⟩

theorem storePreserve_trans {w1 w2 w3 : World}
    (h12 : StorePreserve w1 w2) (h23 : StorePreserve w2 w3) :
    StorePreserve w1 w3 := by
  obtain ⟨a12, b12, c12, d12, e12⟩ := h12
  obtain ⟨a23, b23, c23, d23, e23⟩ := h23
  exact ⟨fun p v h => a23 p v (a12 p v h),
    fun p hp => (b23 p hp).trans (b12 p hp),
    c23.trans c12, d23.trans d12, e23.trans e12⟩

theorem save_object_storePreserve (w : World) (data : List Byte) :
    StorePreserve w (save_object w data).1 := by
  refine ⟨fun p v h => save_object_preserves w data h,
    fun p hp => save_object_other_path w data hp, ?_, ?_, ?_⟩ <;>
  · simp only [save_object]
    split
    · rfl
    · split
      · rfl
      · split <;> rfl

theorem chunk_and_save_data_storePreserve (w : World) (content : List Byte) :
    StorePreserve w (chunk_and_save_data w content).1 := by
  unfold chunk_and_save_data
  exact storePreserve_trans (save_object_storePreserve _ _)
    (save_object_storePreserve _ _)

theorem walk_storePreserve : ∀ (n : Nat),
    (∀ (entries : List WEntry), sizeOf entries ≤ n →
      ∀ (w : World) (cur : String) (idx : VosIndex),
        StorePreserve w ((traverseEntries w entries cur idx).1)) ∧
    (∀ (listing : Except IoErr (List WEntry)), sizeOf listing ≤ n →
      ∀ (w : World) (cur : String) (idx : VosIndex),
        StorePreserve w ((traverse_and_save_tree w listing cur idx).1)) := by
  intro n
  induction n with
  | zero =>
    constructor
    · intro entries hn
      exfalso
      cases entries <;> simp at hn
    · intro listing hn
      exfalso
      cases listing <;> simp at hn
  | succ n ih =>
    obtain ⟨ihE, ihT⟩ := ih
    constructor
    · intro entries hn w cur idx
      match entries with
      | [] =>
        simp only [traverseEntries]
        exact storePreserve_refl w
      | .entryErr e :: rest =>
        simp only [traverseEntries]
        exact storePreserve_refl w
      | .other nm :: rest =>
        simp only [traverseEntries]
        refine ihE rest ?_ w cur idx
        simp at hn
        omega
      | .metaErr nm e :: rest =>
        simp only [traverseEntries]
        by_cases hname : nm = ".orb"
        · rw [if_pos hname]
          refine ihE rest ?_ w cur idx
          simp at hn
          omega
        · rw [if_neg hname]
          exact storePreserve_refl w
      | .file name mtime content :: rest =>
        have hrest : sizeOf rest ≤ n := by simp at hn; omega
        cases content with
        | error e =>
          simp only [traverseEntries]
          by_cases hname : name = ".orb"
          · rw [if_pos hname]
            exact ihE rest hrest w cur idx
          · rw [if_neg hname]
            exact storePreserve_refl w
        | ok c =>
          simp only [traverseEntries]
          by_cases hname : name = ".orb"
          · rw [if_pos hname]
            exact ihE rest hrest w cur idx
          · rw [if_neg hname]
            rcases hc : chunk_and_save_data w c with ⟨w1, fid, sz⟩
            have h1 : StorePreserve w w1 := by
              have := chunk_and_save_data_storePreserve w c
              rw [hc] at this
              exact this
            dsimp only
            rcases hr : traverseEntries w1 rest cur
              (idx.update_entry (if cur = "" then name else cur ++ "/" ++ name)
                mtime c.length fid) with ⟨w2, idx2, res⟩
            have h2 : StorePreserve w1 w2 := by
              have := ihE rest hrest w1 cur
                (idx.update_entry (if cur = "" then name else cur ++ "/" ++ name)
                  mtime c.length fid)
              rw [hr] at this
              exact this
            cases res <;> exact storePreserve_trans h1 h2
      | .dir name children :: rest =>
        have hrest : sizeOf rest ≤ n := by simp at hn; omega
        have hchild : sizeOf children ≤ n := by simp at hn; omega
        simp only [traverseEntries]
        by_cases hname : name = ".orb"
        · rw [if_pos hname]
          exact ihE rest hrest w cur idx
        · rw [if_neg hname]
          rcases hts : traverse_and_save_tree w children
            (if cur = "" then name else cur ++ "/" ++ name) idx
            with ⟨wa, idxa, resa⟩
          have h1 : StorePreserve w wa := by
            have := ihT children hchild w
              (if cur = "" then name else cur ++ "/" ++ name) idx
            rw [hts] at this
            exact this
          cases resa with
          | error e => exact h1
          | ok dirId =>
            dsimp only
            rcases hr : traverseEntries wa rest cur idxa with ⟨w2, idx2, res2⟩
            have h2 : StorePreserve wa w2 := by
              have := ihE rest hrest wa cur idxa
              rw [hr] at this
              exact this
            cases res2 <;> exact storePreserve_trans h1 h2
    · intro listing hn w cur idx
      cases listing with
      | error e =>
        simp only [traverse_and_save_tree]
        exact storePreserve_refl w
      | ok entries =>
        have hent : sizeOf entries ≤ n := by simp at hn; omega
        simp only [traverse_and_save_tree]
        rcases hte : traverseEntries w entries cur idx with ⟨wa, idxa, res⟩
        have h1 : StorePreserve w wa := by
          have := ihE entries hent w cur idx
          rw [hte] at this
          exact this
        cases res with
        | error e => exact h1
        | ok des =>
          dsimp only
          rcases hso : save_object wa (strBytes (serializeDirectory ⟨des⟩))
            with ⟨wb, oid⟩
          have h2 : StorePreserve wa wb := by
            have := save_object_storePreserve wa
              (strBytes (serializeDirectory ⟨des⟩))
            rw [hso] at this
            exact this
          exact storePreserve_trans h1 h2

theorem traverseEntries_storePreserve (w : World) (entries : List WEntry)
    (cur : String) (idx : VosIndex) :
    StorePreserve w ((traverseEntries w entries cur idx).1) :=
  (walk_storePreserve (sizeOf entries)).1 entries le_rfl w cur idx

theorem traverse_and_save_tree_storePreserve (w : World)
    (listing : Except IoErr (List WEntry)) (cur : String) (idx : VosIndex) :
    StorePreserve w ((traverse_and_save_tree w listing cur idx).1) :=
  (walk_storePreserve (sizeOf listing)).2 listing le_rfl w cur idx

theorem refPath_not_object_path : ∀ pre suf,
    refPath ≠ [".orb", "objects", pre, suf] := by
  intro pre suf h
  simp [refPath] at h

/-- C7 (amended): a failed `save_snapshot` failed either inside the
working-tree walk — `fs::read_dir`, a directory entry, `fs::metadata` or
the `fs::read` inside `vos::chunk_and_save_file` erred and the `?` on
`traverse_and_save_tree` propagated it — in which case the tip file is
unchanged; or inside `update_head`: there the tip file is unchanged when
the directory creation or the `File::create` of the ref file failed, but
when `File::create` succeeded and the `write_all` of the new tip failed,
the tip file has been truncated (in this model's all-or-nothing write, to
empty) rather than left unchanged; in every failure mode, objects already
written stay in the store (any path other than the ref file and the Index
file keeps its contents). -/
theorem c7_failed_snapshot_tip :
    ∀ (w : World) (loaded : VosIndex) (workTree : Except IoErr (List WEntry))
      (message : String) (now : Int) (w' : World) (er : IoErr),
      save_snapshot w loaded workTree message now = (w', .error er) →
      (((traverse_and_save_tree w workTree ""
            { loaded with entries := [] }).2.2 = Except.error er ∧
        assocLookup w'.files refPath = assocLookup w.files refPath) ∨
       (assocLookup w'.files refPath = assocLookup w.files refPath ∧
        (w.mkdirOk [".orb", "refs", "heads"] = false ∨
          w.createOk refPath = false)) ∨
       (w.createOk refPath = true ∧ w.writeOk refPath = false ∧
        assocLookup w'.files refPath = some [])) ∧
      (∀ p v, p ≠ refPath → p ≠ indexPath →
        assocLookup w.files p = some v → assocLookup w'.files p = some v) := by
  intro w loaded workTree message now w' er heq
  simp only [save_snapshot, get_head_commit_id] at heq
  rcases ht : traverse_and_save_tree w workTree "" {loaded with entries := []}
    with ⟨w1, idx1, rootRes⟩
  have hsp1 : StorePreserve w w1 := by
    have := traverse_and_save_tree_storePreserve w workTree ""
      {loaded with entries := []}
    rw [ht] at this
    exact this
  cases rootRes with
  | error e =>
    simp only [ht, Prod.mk.injEq, Except.error.injEq] at heq
    obtain ⟨hw1, herr⟩ := heq
    obtain ⟨h1pres, h1other, _, _, _⟩ := hsp1
    subst hw1
    refine ⟨Or.inl ⟨?_, ?_⟩, ?_⟩
    · exact congrArg Except.error herr
    · exact h1other refPath refPath_not_object_path
    · intro p v _ _ h
      exact h1pres p v h
  | ok root =>
    simp only [ht] at heq
    -- the index-save step touches only `indexPath`
    have hstep2 : ∀ (w2 : World),
        w2 = (if w1.writeOk indexPath then
          { w1 with files :=
              assocSet w1.files indexPath (strBytes (serializeIndex idx1)) }
          else w1) →
        (∀ p, p ≠ indexPath → assocLookup w2.files p = assocLookup w1.files p) ∧
        w2.mkdirOk = w1.mkdirOk ∧ w2.createOk = w1.createOk ∧
        w2.writeOk = w1.writeOk := by
      intro w2 hw2
      by_cases hidx : w1.writeOk indexPath
      · rw [if_pos hidx] at hw2
        subst hw2
        exact ⟨fun p hp => assocLookup_assocSet_ne _ _ _ _ hp, rfl, rfl, rfl⟩
      · rw [if_neg hidx] at hw2
        subst hw2
        exact ⟨fun p _ => rfl, rfl, rfl, rfl⟩
    rcases hw2idx : (if w1.writeOk indexPath then
        { w1 with files :=
            assocSet w1.files indexPath (strBytes (serializeIndex idx1)) }
        else w1) with w2
    obtain ⟨h2lookup, h2m, h2c, h2w⟩ := hstep2 w2 hw2idx.symm
    rw [hw2idx] at heq
    rcases hso : save_object w2
      (strBytes (serializeCommit (snapshot_commit root "" now message)))
      with ⟨w3, oid2⟩
    simp only [hso] at heq
    have hsp3 : StorePreserve w2 w3 := by
      have := save_object_storePreserve w2
        (strBytes (serializeCommit (snapshot_commit root "" now message)))
      rw [hso] at this
      exact this
    obtain ⟨h3pres, h3other, h3m, h3c, h3w⟩ := hsp3
    obtain ⟨h1pres, h1other, h1m, h1c, h1w⟩ := hsp1
    -- lookup of any non-ref non-index path survives to `w3`
    have hchain : ∀ p v, p ≠ refPath → p ≠ indexPath →
        assocLookup w.files p = some v → assocLookup w3.files p = some v := by
      intro p v _ hpidx h
      exact h3pres p v ((h2lookup p hpidx) ▸ (h1pres p v h))
    have hrefchain : assocLookup w3.files refPath = assocLookup w.files refPath := by
      rw [h3other refPath refPath_not_object_path,
        h2lookup refPath (by simp [refPath, indexPath]),
        h1other refPath refPath_not_object_path]
    have horm : w3.mkdirOk = w.mkdirOk := by rw [h3m, h2m, h1m]
    have horc : w3.createOk = w.createOk := by rw [h3c, h2c, h1c]
    have horw : w3.writeOk = w.writeOk := by rw [h3w, h2w, h1w]
    rcases hu : update_head w3 (hashCommitObj (snapshot_commit root "" now message))
      with ⟨w4, res⟩
    simp only [hu] at heq
    cases res with
    | ok u =>
      simp only [Prod.mk.injEq] at heq
      exact absurd heq.2 (fun hcon => Except.noConfusion hcon)
    | error e2 =>
      simp only [Prod.mk.injEq] at heq
      obtain ⟨hww, _⟩ := heq
      subst hww
      simp only [update_head] at hu
      by_cases hm : w3.mkdirOk [".orb", "refs", "heads"] = false
      · rw [if_pos hm] at hu
        simp only [Prod.mk.injEq] at hu
        obtain ⟨hw4, _⟩ := hu
        subst hw4
        exact ⟨Or.inr (Or.inl ⟨hrefchain, Or.inl (horm ▸ hm)⟩), hchain⟩
      · rw [if_neg hm] at hu
        by_cases hc : w3.createOk refPath = false
        · rw [if_pos hc] at hu
          simp only [Prod.mk.injEq] at hu
          obtain ⟨hw4, _⟩ := hu
          subst hw4
          exact ⟨Or.inr (Or.inl ⟨hrefchain, Or.inr (horc ▸ hc)⟩), hchain⟩
        · rw [if_neg hc] at hu
          by_cases hwr : w3.writeOk refPath
          · rw [if_pos hwr] at hu
            simp only [Prod.mk.injEq] at hu
            exact absurd hu.2 (fun hcon => Except.noConfusion hcon)
          · rw [if_neg hwr] at hu
            simp only [Prod.mk.injEq] at hu
            obtain ⟨hw4, _⟩ := hu
            subst hw4
            refine ⟨Or.inr (Or.inr ⟨?_, ?_, ?_⟩), ?_⟩
            · rw [← horc]
              exact eq_true_of_ne_false hc
            · rw [← horw]
              exact Bool.eq_false_iff.mpr hwr
            · exact assocLookup_assocSet_self _ _ _
            · intro p v hpref hpidx h
              rw [assocLookup_assocSet_ne _ _ _ _ hpref]
              exact hchain p v hpref hpidx h

/-- Counterexample for C7 as stated: with all writes failing (e.g. a full
disk), a failed `save_snapshot` does not leave the tip unchanged: the
`File::create` inside `update_head` truncates `.orb/refs/heads/main`, so
the old tip bytes (here those of `"c1"`) are replaced by an empty file
when the subsequent `write_all` fails. -/
theorem c7_counterexample_tip_truncated :
    save_snapshot
      ⟨[(refPath, strBytes "c1")], fun _ => true, fun _ => true, fun _ => false⟩
      ⟨1, []⟩ (.ok []) "m" 0 =
      (⟨[(refPath, [])], fun _ => true, fun _ => true, fun _ => false⟩,
        .error .other) ∧
    strBytes "c1" ≠ ([] : List Byte) := by
  constructor
  · simp [save_snapshot, get_head_commit_id, traverse_and_save_tree,
      traverseEntries, save_object, update_head, assocLookup, assocSet,
      refPath, indexPath, objectPathOf, objectFileOf, objectDirOf]
  · decide

/-- Witness for C7 at the concrete failing world: the theorem yields that
the tip file was truncated to empty. -/
theorem c7_failed_snapshot_tip_witness :
    assocLookup
      (⟨[(refPath, [])], fun _ => true, fun _ => true,
        fun _ => false⟩ : World).files refPath = some ([] : List Byte) := by
  have heq : save_snapshot
      ⟨[(refPath, strBytes "c1")], fun _ => true, fun _ => true, fun _ => false⟩
      ⟨1, []⟩ (.ok []) "m" 0 =
      (⟨[(refPath, [])], fun _ => true, fun _ => true, fun _ => false⟩,
        .error .other) := by
    simp [save_snapshot, get_head_commit_id, traverse_and_save_tree,
      traverseEntries, save_object, update_head, assocLookup, assocSet,
      refPath, indexPath, objectPathOf, objectFileOf, objectDirOf]
  rcases (c7_failed_snapshot_tip
      ⟨[(refPath, strBytes "c1")], fun _ => true, fun _ => true, fun _ => false⟩
      ⟨1, []⟩ (.ok []) "m" 0
      ⟨[(refPath, [])], fun _ => true, fun _ => true, fun _ => false⟩
      .other heq).1 with ⟨hbadw, _⟩ | ⟨_, hbad⟩ | ⟨_, _, h3⟩
  · simp [traverse_and_save_tree, traverseEntries, save_object, assocLookup,
      refPath, objectPathOf, objectFileOf, objectDirOf] at hbadw
  · rcases hbad with h | h <;> simp at h
  · exact h3

end Orbit
